import Mathlib

/-!
Verification development for the folder-tree synthesis and AI-assisted
placement pipeline of a Google-Drive uploader web service
(source: server/index.js).

The JavaScript handlers are shallowly embedded as pure Lean functions.
Remote calls (Drive listing pages, object creation, metadata fetch,
move update, chat-completion requests) are passed in as oracle
arguments; a JavaScript exception is an `Except.error` carrying the
error message, and a JavaScript `try/catch` is a `match` on that
`Except`.  JavaScript strings are Lean `String`s; the string operations
the source uses (`toLowerCase`, `trim`, `split`, the quote-stripping
regex) are re-implemented below over the underlying character list so
that every definition evaluates inside the kernel.
-/

/-! ## JavaScript string primitives -/

/-- Mirror of JavaScript `String.prototype.toLowerCase` (ASCII range,
which covers every string the handlers compare). -/
def jsToLower (s : String) : String :=
  ⟨s.data.map Char.toLower⟩

/-- Mirror of JavaScript `String.prototype.trim`: drop leading and
trailing whitespace. -/
def jsTrim (s : String) : String :=
  ⟨(((s.data.dropWhile Char.isWhitespace).reverse).dropWhile Char.isWhitespace).reverse⟩

/-- The two quote characters, double quote (code 34) and single quote
(code 39), stripped by the regex in `findMatchingFolder`. -/
def isQuoteChar (c : Char) : Bool :=
  c == Char.ofNat 34 || c == Char.ofNat 39

/-- Drop one leading quote character, if present. -/
def dropLeadingQuote : List Char → List Char
  | [] => []
  | c :: rest => if isQuoteChar c then rest else c :: rest

/-- Drop one trailing quote character, if present. -/
def dropTrailingQuote (l : List Char) : List Char :=
  (dropLeadingQuote l.reverse).reverse

/-- Mirror of the regex replace in the source,
`.replace(/^["\x27]|["\x27]$/g, "")`: remove at most one leading and at
most one trailing quote character. -/
def stripEdgeQuotes (s : String) : String :=
  ⟨dropTrailingQuote (dropLeadingQuote s.data)⟩

/-- The cleanup the source applies to the completion answer:
`content.trim().replace(/^["\x27]|["\x27]$/g, "")`. -/
def cleanAnswer (s : String) : String :=
  stripEdgeQuotes (jsTrim s)

/-- JavaScript truthiness of an optional string: `undefined` and the
empty string are falsy. -/
def strTruthy : Option String → Bool
  | none => false
  | some s => !(s == "")

/-- Mirror of `filename.split(".").pop()`: the part of the string after
the last dot character (code 46), or the whole string when it has no
dot. -/
def lastSplitComponent (s : String) : String :=
  ⟨(s.data.reverse.takeWhile (fun c => !(c == Char.ofNat 46))).reverse⟩

/-! ## Data model: folder records and the reconstructed tree -/

/-- A flat folder record as returned by one page of
`drive.files.list` with fields `id, name, parents`.  The `parents`
field may be absent (`none`), which JavaScript sees as `undefined`. -/
structure Folder where
  id : String
  name : String
  parents : Option (List String)
deriving DecidableEq, Repr

/-- A node of the reconstructed hierarchy: the object
`{ id, name, parents, folders }` placed into `folderMap`. -/
structure FolderNode where
  id : String
  name : String
  parents : List String
  folders : List FolderNode
deriving Repr

/-- The top-level response value
`{ id: "root", name: "My Drive", path: "", folders: rootFolders }`.
The source names the fourth field `folders` and the wrapper carries a
`path` string; the record is reproduced verbatim. -/
structure DriveTree where
  id : String
  name : String
  path : String
  folders : List FolderNode
deriving Repr

/-- Mirror of `folder.parents?.[0] || "root"`: the first declared
parent id, with `undefined`, a missing first element, and the (falsy)
empty string all collapsing to the literal `"root"`. -/
def effParent (f : Folder) : String :=
  match f.parents with
  | none => "root"
  | some l =>
    match l.head? with
    | none => "root"
    | some p => if p = "" then "root" else p

/-- Mirror of `folder.parents || ["root"]`, the parents field stored on
the map node (an empty array is truthy in JavaScript and is kept). -/
def nodeParents (f : Folder) : List String :=
  match f.parents with
  | none => ["root"]
  | some l => l

/-- The key set of `folderMap` after the first pass: every record id. -/
def folderIds (records : List Folder) : List String :=
  records.map Folder.id

/-- The second-pass branch condition
`parentId === "root" || !folderMap.has(parentId)`: such a record is
pushed onto `rootFolders`. -/
def isRootChild (ids : List String) (f : Folder) : Bool :=
  effParent f == "root" || !(ids.contains (effParent f))

/-- The records pushed onto `rootFolders` by the second pass. -/
def rootRecords (records : List Folder) : List Folder :=
  records.filter (isRootChild (folderIds records))

/-- The records pushed onto the `folders` array of the map node with id
`p` by the second pass, in listing order. -/
def childRecords (records : List Folder) (p : String) : List Folder :=
  records.filter (fun c => !(isRootChild (folderIds records) c) && effParent c == p)

/-- Unfold the child relation of the second pass into a tree.  The
source mutates shared map nodes; with pairwise-distinct ids the
resulting object graph reachable from `rootFolders` is exactly this
unfolding, and a fuel of `records.length` never cuts a reachable chain
because a parent chain starting at a root child cannot revisit a
record. -/
def buildNode (records : List Folder) : Nat → Folder → FolderNode
  | 0, r => ⟨r.id, r.name, nodeParents r, []⟩
  | fuel + 1, r =>
    ⟨r.id, r.name, nodeParents r,
      (childRecords records r.id).map (buildNode records fuel)⟩

/-- The comparator relation used by `list.sort((a, b) =>
a.name.localeCompare(b.name))`, abstracted over the locale order `le`
(where `le a b` stands for `a.localeCompare(b) <= 0`). -/
def leName (le : String → String → Bool) (a b : FolderNode) : Prop :=
  le a.name b.name = true

instance instDecLeName (le : String → String → Bool) : DecidableRel (leName le) :=
  fun a b => inferInstanceAs (Decidable (le a.name b.name = true))

/-- Mirror of the recursive in-place `sortFolders`: sort the children
of a node by name, then recurse into each child.  A stable sort is
used, matching the ECMAScript guarantee for `Array.prototype.sort`. -/
def sortNode (le : String → String → Bool) : FolderNode → FolderNode
  | ⟨i, n, ps, fs⟩ =>
    ⟨i, n, ps, (List.insertionSort (leName le) fs).attach.map fun c => sortNode le c.1⟩
decreasing_by
  simp only [FolderNode.mk.sizeOf_spec]
  have h2 : c.1 ∈ fs := (List.mem_insertionSort (leName le)).mp c.2
  have h := List.sizeOf_lt_of_mem h2
  omega

/-- Mirror of the top-level `sortFolders(rootFolders)` call: sort the
root list, then recursively sort inside each tree. -/
def sortFolders (le : String → String → Bool) (l : List FolderNode) : List FolderNode :=
  (List.insertionSort (leName le) l).map (sortNode le)

/-- The whole tree build of the `GET /api/folders` handler, from the
accumulated flat listing to the response structure. -/
def buildTree (le : String → String → Bool) (records : List Folder) : DriveTree :=
  ⟨"root", "My Drive", "",
    sortFolders le ((rootRecords records).map (buildNode records records.length))⟩

/-! ## File-type classification and prompt construction -/

/-- The fixed extension-to-label table of `getFileType`. -/
def fileTypeMap : List (String × String) :=
  [(".jpg", "Image"), (".jpeg", "Image"), (".png", "Image"), (".gif", "Image"), (".webp", "Image"),
   (".mp4", "Video"), (".avi", "Video"), (".mov", "Video"), (".mkv", "Video"),
   (".mp3", "Audio"), (".wav", "Audio"), (".flac", "Audio"),
   (".pdf", "Document"), (".doc", "Document"), (".docx", "Document"),
   (".xls", "Spreadsheet"), (".xlsx", "Spreadsheet"),
   (".ppt", "Presentation"), (".pptx", "Presentation"),
   (".txt", "Text"), (".zip", "Archive"), (".rar", "Archive"),
   (".js", "Code"), (".ts", "Code"), (".py", "Code"), (".html", "Code"), (".css", "Code")]

/-- Mirror of `getFileType`: look the lower-cased dotted extension up
in the table, defaulting to the generic label. -/
def getFileType (filename : String) : String :=
  let ext := "." ++ jsToLower (lastSplitComponent filename)
  (fileTypeMap.lookup ext).getD "File"

/-- The metadata object the upload handler passes to
`findMatchingFolder`. -/
structure FileMeta where
  extension : String
  fileType : String
  size : Nat
deriving DecidableEq, Repr

/-- Mirror of `allFolders.map(f => f.name).join(", ")`. -/
def folderListString (fs : List Folder) : String :=
  String.intercalate ", " (fs.map Folder.name)

/-- The system message content sent to the completion service. -/
def systemPrompt (fs : List Folder) : String :=
  "Match files to folders. Available folders: " ++ folderListString fs ++
    ". Return ONLY the exact folder name or \"NONE\"."

/-- Mirror of the `fileInfo` array-filter-join construction. -/
def fileInfoString (fileName : String) (meta : FileMeta) : String :=
  String.intercalate ", "
    (([if fileName == "" then "" else "File name: \"" ++ fileName ++ "\"",
       if meta.extension == "" then "" else "Extension: " ++ meta.extension,
       if meta.fileType == "" then "" else "Type: " ++ meta.fileType]).filter
      (fun s => !(s == "")))

/-- The user message content sent to the completion service. -/
def userPrompt (hintText : Option String) (fileName : String) (meta : FileMeta) : String :=
  fileInfoString fileName meta ++
    (match hintText with
     | some h => if h == "" then "" else ". Hint: \"" ++ h ++ "\""
     | none => "") ++
    ". Which folder?"

/-! ## The placement resolver `findMatchingFolder`

The function never rejects: the outer try/catch swallows listing
failures, the completion request is wrapped in a promise that only ever
resolves, a request error resolves `null`, and a body that fails to
parse (or lacks `choices[0].message.content`) resolves `null`.  In the
embedding the accumulated paginated listing is an
`Except String (List Folder)` (error = some page of
`drive.files.list` rejected), and the completion call is an oracle from
the two message contents to either a network or parse error or the
optional extracted `content` string. -/

/-- Shallow embedding of `findMatchingFolder(drive, hintText, fileName,
fileMetadata)`. -/
def findMatchingFolder (apiKey : Option String) (hintText : Option String)
    (fileName : String) (fileMetadata : FileMeta)
    (listing : Except String (List Folder))
    (complete : String → String → Except String (Option String)) : Option Folder :=
  if !(strTruthy apiKey) then none
  else
    match listing with
    | .error _ => none
    | .ok allFolders =>
      if allFolders.length == 0 then none
      else
        match complete (systemPrompt allFolders)
            (userPrompt hintText fileName fileMetadata) with
        | .error _ => none
        | .ok none => none
        | .ok (some content) =>
          let folderName := cleanAnswer content
          if folderName == "" || jsToLower folderName == "none" then none
          else allFolders.find? (fun f => jsToLower f.name == jsToLower folderName)

/-! ## The pagination loop

Both the `GET /api/folders` handler and `findMatchingFolder` run the
same `do ... while (nextPageToken)` loop over `drive.files.list`.  The
provider is an infinite page sequence; the embedding spends one unit of
fuel per iteration and returns `none` when the loop is still running
after the given number of iterations, so termination statements become
statements about the existence of a sufficient fuel. -/

/-- One page of `drive.files.list`: the `files` array (absent modelled
as `[]`, matching `response.data.files || []`) and the optional
continuation token. -/
structure FolderPage where
  files : List Folder
  nextPageToken : Option String

/-- The accumulation loop: page `i` is fetched, its files appended, and
the loop continues while a continuation token is present. -/
def listLoopAux (pages : Nat → FolderPage) : Nat → Nat → List Folder → Option (List Folder)
  | 0, _, _ => none
  | fuel + 1, i, acc =>
    let p := pages i
    let acc2 := acc ++ p.files
    match p.nextPageToken with
    | none => some acc2
    | some _ => listLoopAux pages fuel (i + 1) acc2

/-- The full pagination loop starting at page 0 with an empty
accumulator. -/
def listAllFolders (pages : Nat → FolderPage) (fuel : Nat) : Option (List Folder) :=
  listLoopAux pages fuel 0 []

/-! ## Endpoint models

Every `/api` handler below wraps its body in `try/catch`; the thrown
error message is mapped to a status by
`error.message === "Not authenticated" ? 401 : 500`.  A missing
session credential makes `getAuthenticatedClient` throw exactly the
message `Not authenticated`. -/

/-- The status mapping applied in every catch clause. -/
def statusFor (msg : String) : Nat :=
  if msg == "Not authenticated" then 401 else 500

/-- Response of `GET /api/folders`.  The source names the success
payload field `structure`, a reserved word in Lean, so it is called
`tree` here. -/
structure FoldersResponse where
  status : Nat
  success : Bool
  tree : Option DriveTree
  message : Option String
deriving Repr

/-- Body of the `GET /api/folders` handler up to its catch clause. -/
def foldersTry (le : String → String → Bool) (tokens : Bool)
    (listing : Except String (List Folder)) : Except String DriveTree :=
  if !tokens then .error "Not authenticated"
  else
    match listing with
    | .error e => .error e
    | .ok records => .ok (buildTree le records)

/-- The `GET /api/folders` handler, catch clause included. -/
def foldersEndpoint (le : String → String → Bool) (tokens : Bool)
    (listing : Except String (List Folder)) : FoldersResponse :=
  match foldersTry le tokens listing with
  | .ok t => ⟨200, true, some t, none⟩
  | .error e => ⟨statusFor e, false, none, some e⟩

/-- The multer-parsed inbound file of `POST /api/upload`. -/
structure ReqFile where
  originalname : String
  mimetype : String
  size : Nat
deriving DecidableEq, Repr

/-- The Drive record returned by `drive.files.create` (fields
`id,name,webViewLink,parents`). -/
structure CreatedFile where
  id : String
  name : String
  webViewLink : String
  parents : List String
deriving DecidableEq, Repr

/-- The Drive mutation and read calls the upload handler can issue, in
order, recorded as an observer trace.  `deleteFile` is a call the Drive
API offers but the handler never makes: its absence from every trace is
the formal content of the file never being removed from its default
location by a later failure. -/
inductive DriveAction where
  | createFile
  | getParents
  | moveUpdate
  | deleteFile
deriving DecidableEq, Repr

/-- Response of `POST /api/upload`, together with the trace of Drive
calls the handler issued. -/
structure UploadResponse where
  status : Nat
  success : Bool
  file : Option CreatedFile
  moved : Option Bool
  message : String
  actions : List DriveAction
deriving DecidableEq, Repr

/-- Shallow embedding of the `POST /api/upload` handler.  Oracles:
`createResult` for `drive.files.create`, `listing` and `complete` for
the calls inside `findMatchingFolder`, `getParentsResult` for the
`drive.files.get` that reads the previous parents, and `updateResult`
for the `drive.files.update` move. -/
def uploadEndpoint (tokens : Bool) (reqFile : Option ReqFile) (hintText : Option String)
    (apiKey : Option String)
    (createResult : Except String CreatedFile)
    (listing : Except String (List Folder))
    (complete : String → String → Except String (Option String))
    (getParentsResult : Except String (List String))
    (updateResult : Except String CreatedFile) : UploadResponse :=
  if !tokens then
    ⟨statusFor "Not authenticated", false, none, none, "Not authenticated", []⟩
  else
    match reqFile with
    | none => ⟨400, false, none, none, "No file provided", []⟩
    | some f =>
      match createResult with
      | .error e => ⟨statusFor e, false, none, none, e, [DriveAction.createFile]⟩
      | .ok created =>
        if strTruthy hintText || !(f.originalname == "") then
          match findMatchingFolder apiKey hintText f.originalname
              ⟨lastSplitComponent f.originalname, getFileType f.originalname, f.size⟩
              listing complete with
          | some folder =>
            match getParentsResult with
            | .error e =>
              ⟨statusFor e, false, none, none, e,
                [DriveAction.createFile, DriveAction.getParents]⟩
            | .ok _prevParents =>
              match updateResult with
              | .error e =>
                ⟨statusFor e, false, none, none, e,
                  [DriveAction.createFile, DriveAction.getParents, DriveAction.moveUpdate]⟩
              | .ok _ =>
                ⟨200, true, some created, some true,
                  "File \"" ++ f.originalname ++ "\" uploaded successfully" ++
                    " and moved to \"" ++ folder.name ++ "\"" ++ "!",
                  [DriveAction.createFile, DriveAction.getParents, DriveAction.moveUpdate]⟩
          | none =>
            ⟨200, true, some created, some false,
              "File \"" ++ f.originalname ++ "\" uploaded successfully" ++
                (if strTruthy hintText then " (no matching folder found)" else "") ++ "!",
              [DriveAction.createFile]⟩
        else
          ⟨200, true, some created, some false,
            "File \"" ++ f.originalname ++ "\" uploaded successfully" ++ "!",
            [DriveAction.createFile]⟩

/-- Response of `POST /api/folders` (create folder). -/
structure CreateFolderResponse where
  status : Nat
  success : Bool
  folder : Option CreatedFile
  message : Option String
deriving DecidableEq, Repr

/-- The `POST /api/folders` handler.  `parentId` only shapes the
metadata sent to the create oracle and is kept for completeness. -/
def createFolderEndpoint (tokens : Bool) (name : String) (_parentId : Option String)
    (createResult : Except String CreatedFile) : CreateFolderResponse :=
  if !tokens then ⟨statusFor "Not authenticated", false, none, some "Not authenticated"⟩
  else
    match createResult with
    | .error e => ⟨statusFor e, false, none, some e⟩
    | .ok folder => ⟨200, true, some folder, some ("Folder \"" ++ name ++ "\" created!")⟩

/-- Response of `POST /api/files/move`. -/
structure MoveFileResponse where
  status : Nat
  success : Bool
  file : Option CreatedFile
  message : Option String
deriving DecidableEq, Repr

/-- The `POST /api/files/move` handler: read the previous parents, then
issue the update; either call throwing lands in the catch clause. -/
def moveFileEndpoint (tokens : Bool)
    (getFileResult : Except String (List String))
    (updateResult : Except String CreatedFile) : MoveFileResponse :=
  if !tokens then ⟨statusFor "Not authenticated", false, none, some "Not authenticated"⟩
  else
    match getFileResult with
    | .error e => ⟨statusFor e, false, none, some e⟩
    | .ok _prevParents =>
      match updateResult with
      | .error e => ⟨statusFor e, false, none, some e⟩
      | .ok file => ⟨200, true, some file, some "File moved!"⟩

/-- A Drive item as returned by the search and latest-file listings. -/
structure DriveItem where
  id : String
  name : String
  parents : Option (List String)
deriving DecidableEq, Repr

/-- Response of `GET /api/files/search`. -/
structure SearchResponse where
  status : Nat
  success : Bool
  items : Option (List DriveItem)
  message : Option String
deriving DecidableEq, Repr

/-- The `GET /api/files/search` handler. -/
def searchEndpoint (tokens : Bool)
    (listing : Except String (List DriveItem)) : SearchResponse :=
  if !tokens then ⟨statusFor "Not authenticated", false, none, some "Not authenticated"⟩
  else
    match listing with
    | .error e => ⟨statusFor e, false, none, some e⟩
    | .ok items => ⟨200, true, some items, none⟩

/-- Response of `GET /api/files/latest`. -/
structure LatestResponse where
  status : Nat
  success : Bool
  file : Option DriveItem
  parentName : Option String
  message : Option String
deriving DecidableEq, Repr

/-- The `GET /api/files/latest` handler.  The inner parent-name fetch
has its own try/catch whose failure silently keeps the default
`My Drive`; an empty listing is a 200 response with `success:false`. -/
def latestEndpoint (tokens : Bool)
    (listing : Except String (List DriveItem))
    (parentFetch : Except String String) : LatestResponse :=
  if !tokens then ⟨statusFor "Not authenticated", false, none, none, some "Not authenticated"⟩
  else
    match listing with
    | .error e => ⟨statusFor e, false, none, none, some e⟩
    | .ok files =>
      match files.head? with
      | some file =>
        let hasParents : Bool :=
          match file.parents with
          | some l => decide (0 < l.length)
          | none => false
        let parentName :=
          if hasParents then
            match parentFetch with
            | .ok n => n
            | .error _ => "My Drive"
          else "My Drive"
        ⟨200, true, some file, some parentName, none⟩
      | none => ⟨200, false, none, none, some "No files found"⟩

/-- What came back over the wire from the chat-completion request made
by `POST /api/chat`: a request error, an unparseable body, or a parsed
body with an optional first choice and an optional error message. -/
inductive ChatUpstream where
  | netErr (msg : String)
  | badJson
  | parsed (choice : Option String) (errMsg : Option String)
deriving DecidableEq, Repr

/-- Response of `POST /api/chat`.  Every branch of the handler replies
via `res.json(...)` without setting a status, so the status is always
200. -/
structure ChatResponse where
  status : Nat
  success : Bool
  message : String
deriving DecidableEq, Repr

/-- The `POST /api/chat` handler.  Note that, unlike every other
`/api` handler, it never calls `getAuthenticatedClient`: the `tokens`
argument is deliberately unused, mirroring the absence of any
credential check in the source. -/
def chatEndpoint (_tokens : Bool) (apiKey : Option String)
    (upstream : ChatUpstream) : ChatResponse :=
  if !(strTruthy apiKey) then ⟨200, false, "AI not configured"⟩
  else
    match upstream with
    | .netErr e => ⟨200, false, e⟩
    | .badJson => ⟨200, false, "Parse error"⟩
    | .parsed (some c) _ => ⟨200, true, c⟩
    | .parsed none em => ⟨200, false, em.getD "AI error"⟩

/-! ## Observers over the built tree -/

/-- Collect the `(id, name)` pair of every node of a tree, in preorder.
This is the observer used to state that the tree contains exactly one
node per listed record. -/
def treeEntries : FolderNode → List (String × String)
  | ⟨i, n, _, fs⟩ => (i, n) :: (fs.attach.map fun c => treeEntries c.1).flatten
decreasing_by
  simp only [FolderNode.mk.sizeOf_spec]
  have h := List.sizeOf_lt_of_mem c.2
  omega

/-- Unfolding lemma for `treeEntries` without the `attach`
bookkeeping. -/
theorem treeEntries_mk (i n : String) (ps : List String) (fs : List FolderNode) :
    treeEntries ⟨i, n, ps, fs⟩ = (i, n) :: fs.flatMap treeEntries := by
  rw [treeEntries.eq_1, List.attach_map_val fs treeEntries, List.flatMap]

/-- `Occurs t s` holds when `s` is a node of the tree `t` (possibly `t`
itself): the subtree relation generated by the `folders` lists. -/
inductive Occurs : FolderNode → FolderNode → Prop where
  | refl (t : FolderNode) : Occurs t t
  | step {t c s : FolderNode} : c ∈ t.folders → Occurs c s → Occurs t s

/-- `OccursAt k t s` additionally counts the number of child steps from
`t` down to `s`. -/
inductive OccursAt : Nat → FolderNode → FolderNode → Prop where
  | refl (t : FolderNode) : OccursAt 0 t t
  | step {k : Nat} {t c s : FolderNode} : c ∈ t.folders → OccursAt k c s → OccursAt (k + 1) t s

/-- Every occurrence happens at some finite depth. -/
theorem Occurs.exists_occursAt {t s : FolderNode} (h : Occurs t s) :
    ∃ k, OccursAt k t s := by
  induction h with
  | refl t => exact ⟨0, OccursAt.refl t⟩
  | step hc _ ih =>
    obtain ⟨k, hk⟩ := ih
    exact ⟨k + 1, OccursAt.step hc hk⟩

/-- Structural strong induction for the nested inductive `FolderNode`. -/
theorem FolderNode.strongInduction (P : FolderNode → Prop)
    (h : ∀ i n ps fs, (∀ c ∈ fs, P c) → P ⟨i, n, ps, fs⟩) : ∀ t, P t
  | ⟨i, n, ps, fs⟩ => h i n ps fs (fun c hc => FolderNode.strongInduction P h c)
decreasing_by
  simp only [FolderNode.mk.sizeOf_spec]
  have := List.sizeOf_lt_of_mem hc
  omega

/-- Unfolding lemma for `sortNode` without the `attach` bookkeeping. -/
theorem sortNode_mk (le : String → String → Bool) (i n : String) (ps : List String)
    (fs : List FolderNode) :
    sortNode le ⟨i, n, ps, fs⟩ =
      ⟨i, n, ps, (List.insertionSort (leName le) fs).map (sortNode le)⟩ := by
  rw [sortNode.eq_1, List.attach_map_val _ (sortNode le)]

/-- `sortNode` keeps the id of a node. -/
theorem sortNode_id (le : String → String → Bool) (t : FolderNode) :
    (sortNode le t).id = t.id := by
  cases t with
  | mk i n ps fs => rw [sortNode_mk]

/-- `sortNode` keeps the name of a node. -/
theorem sortNode_name (le : String → String → Bool) (t : FolderNode) :
    (sortNode le t).name = t.name := by
  cases t with
  | mk i n ps fs => rw [sortNode_mk]

/-- The record-level counterpart of `treeEntries` on the unfolded child
relation, with explicit fuel. -/
def descEntries (records : List Folder) : Nat → Folder → List (String × String)
  | 0, r => [(r.id, r.name)]
  | fuel + 1, r =>
    (r.id, r.name) :: (childRecords records r.id).flatMap (descEntries records fuel)

/-- Building a node and collecting its entries is the same as unfolding
the child relation on records. -/
theorem treeEntries_buildNode (records : List Folder) :
    ∀ (fuel : Nat) (r : Folder),
      treeEntries (buildNode records fuel r) = descEntries records fuel r := by
  intro fuel
  induction fuel with
  | zero =>
    intro r
    rw [buildNode, treeEntries_mk, descEntries]
    rfl
  | succ fuel ih =>
    intro r
    rw [buildNode, treeEntries_mk, descEntries, List.flatMap_map]
    congr 1
    exact List.flatMap_congr (fun c _ => ih c)

/-! ## A concrete computable comparator for instantiations -/


/-- Lexicographic comparison of character lists by code point. -/
def lexLe : List Char → List Char → Bool
  | [], _ => true
  | _ :: _, [] => false
  | a :: as, b :: bs =>
    if a.toNat < b.toNat then true
    else if b.toNat < a.toNat then false
    else lexLe as bs

/-- A concrete, fully computable total order on strings, standing in
for the locale comparator in concrete instantiations. -/
def demoLe (a b : String) : Bool :=
  lexLe a.data b.data

theorem lexLe_total : ∀ as bs : List Char, lexLe as bs = true ∨ lexLe bs as = true
  | [], _ => Or.inl rfl
  | _ :: _, [] => Or.inr rfl
  | a :: as, b :: bs => by
    by_cases h1 : a.toNat < b.toNat
    · left
      simp [lexLe, h1]
    · by_cases h2 : b.toNat < a.toNat
      · right
        simp [lexLe, h1, h2]
      · rcases lexLe_total as bs with h | h
        · left
          simp [lexLe, h1, h2, h]
        · right
          simp [lexLe, h1, h2, h]

theorem lexLe_trans : ∀ as bs cs : List Char,
    lexLe as bs = true → lexLe bs cs = true → lexLe as cs = true
  | [], _, _ => fun _ _ => rfl
  | _ :: _, [], _ => fun h _ => by simp [lexLe] at h
  | _ :: _, _ :: _, [] => fun _ h => by simp [lexLe] at h
  | a :: as, b :: bs, c :: cs => fun h1 h2 => by
    simp only [lexLe] at h1 h2 ⊢
    split_ifs at h1 h2 ⊢ <;> first
      | rfl
      | omega
      | exact lexLe_trans as bs cs h1 h2

theorem demoLe_total (a b : String) : demoLe a b = true ∨ demoLe b a = true :=
  lexLe_total a.data b.data

theorem demoLe_trans (a b c : String) (h1 : demoLe a b = true) (h2 : demoLe b c = true) :
    demoLe a c = true :=
  lexLe_trans a.data b.data c.data h1 h2

/-! ## Generic permutation lemmas -/


theorem string_beq_comm (a b : String) : (a == b) = (b == a) := by
  by_cases h : a = b
  · subst h
    rfl
  · have h2 : ¬b = a := fun e => h e.symm
    simp [h, h2]

theorem perm_filter_or_split {α : Type} (p q : α → Bool) :
    ∀ l : List α,
      (l.filter p ++ l.filter (fun a => !p a && q a)).Perm (l.filter (fun a => p a || q a))
  | [] => by simp
  | a :: l => by
    by_cases hp : p a = true
    · simp only [List.filter_cons, hp, Bool.not_true, Bool.false_and, if_false,
        Bool.true_or, if_true, List.cons_append]
      exact (perm_filter_or_split p q l).cons a
    · have hp2 : p a = false := by
        revert hp
        cases p a <;> simp
      by_cases hq : q a = true
      · simp only [List.filter_cons, hp2, Bool.not_false, Bool.true_and, hq, if_true,
          Bool.false_or, if_false]
        exact List.perm_middle.trans ((perm_filter_or_split p q l).cons a)
      · have hq2 : q a = false := by
          revert hq
          cases q a <;> simp
        simp only [List.filter_cons, hp2, Bool.not_false, Bool.true_and, hq2, if_false,
          Bool.false_or]
        exact perm_filter_or_split p q l

theorem flatMap_filter_key_perm {α β : Type} (key : α → String) (k : β → String) :
    ∀ (L : List α) (M : List β), (L.map key).Nodup →
      (L.flatMap fun q => M.filter fun c => k c == key q).Perm
        (M.filter fun c => L.any fun q => key q == k c)
  | [], M => by
    intro _
    simp
  | q :: L, M => by
    intro hnd
    rw [List.map_cons, List.nodup_cons] at hnd
    have ih := flatMap_filter_key_perm key k L M hnd.2
    rw [List.flatMap_cons]
    have step1 :
        (M.filter (fun c => k c == key q) ++ L.flatMap fun r => M.filter fun c => k c == key r).Perm
          (M.filter (fun c => k c == key q) ++ M.filter fun c => L.any fun r => key r == k c) :=
      List.Perm.append_left _ ih
    have hcongr : (M.filter fun c => !(k c == key q) && (L.any fun r => key r == k c)) =
        (M.filter fun c => L.any fun r => key r == k c) := by
      apply List.filter_congr
      intro c _
      by_cases hin : (L.any fun r => key r == k c) = true
      · have hne : (k c == key q) = false := by
          rcases List.any_eq_true.mp hin with ⟨r, hrL, hr⟩
          have : key r = k c := by
            exact beq_iff_eq.mp hr
          have hkc : k c ∈ L.map key := this ▸ List.mem_map_of_mem key hrL
          have : ¬(k c = key q) := fun e => hnd.1 (e ▸ hkc)
          simp [this]
        simp [hne, hin]
      · have hin2 : (L.any fun r => key r == k c) = false := by
          revert hin
          cases (L.any fun r => key r == k c) <;> simp
        simp [hin2]
    have step2 := perm_filter_or_split (fun c => k c == key q)
      (fun c => L.any fun r => key r == k c) M
    rw [hcongr] at step2
    refine step1.trans (step2.trans ?_)
    have : (M.filter fun c => (k c == key q) || (L.any fun r => key r == k c)) =
        (M.filter fun c => (q :: L).any fun r => key r == k c) := by
      apply List.filter_congr
      intro c _
      rw [List.any_cons, string_beq_comm (key q) (k c)]
    rw [this]


theorem perm_range_flatMap_filter {α : Type} (f : α → Nat) :
    ∀ (N : Nat) (l : List α), (∀ a ∈ l, f a < N) →
      l.Perm ((List.range N).flatMap fun j => l.filter fun a => f a == j) := by
  intro N
  induction N with
  | zero =>
    intro l h
    have hl : l = [] := by
      cases l with
      | nil => rfl
      | cons a t => exact absurd (h a (List.mem_cons_self a t)) (Nat.not_lt_zero _)
    subst hl
    simp
  | succ N ih =>
    intro l h
    have hsplit := List.filter_append_perm (fun a => !(f a == N)) l
    have hnn : (l.filter fun a => !(!(f a == N))) = l.filter fun a => f a == N := by
      apply List.filter_congr
      intro a _
      rw [Bool.not_not]
    rw [hnn] at hsplit
    have hbound : ∀ a ∈ l.filter (fun a => !(f a == N)), f a < N := by
      intro a ha
      rcases List.mem_filter.mp ha with ⟨hal, hfa⟩
      have h1 : f a < N + 1 := h a hal
      have h2 : ¬(f a = N) := by
        intro e
        rw [e] at hfa
        simp at hfa
      omega
    have ihl := ih (l.filter fun a => !(f a == N)) hbound
    have hfilter : ∀ j ∈ List.range N,
        ((l.filter fun a => !(f a == N)).filter fun a => f a == j) =
          l.filter fun a => f a == j := by
      intro j hj
      have hjN : j < N := List.mem_range.mp hj
      rw [List.filter_filter]
      apply List.filter_congr
      intro a _
      by_cases hfa : f a = j
      · have : ¬(f a = N) := by omega
        simp only [hfa, beq_self_eq_true, Bool.true_and]
        have hjne : (j == N) = false := by
          simp only [beq_eq_false_iff_ne]
          omega
        simp [hjne]
      · simp [hfa]
    have hflat : ((List.range N).flatMap fun j =>
          (l.filter fun a => !(f a == N)).filter fun a => f a == j) =
        (List.range N).flatMap fun j => l.filter fun a => f a == j :=
      List.flatMap_congr hfilter
    rw [hflat] at ihl
    have final := hsplit.symm.trans (List.Perm.append_right _ ihl)
    rw [List.range_succ, List.flatMap_append, List.flatMap_cons, List.flatMap_nil,
      List.append_nil]
    exact final


theorem flatMap_entry_children_perm {α β γ : Type} (F : List α) (e : α → γ)
    (c : α → List β) (h : β → List γ) :
    (F.flatMap fun r => e r :: (c r).flatMap h).Perm
      (F.map e ++ (F.flatMap c).flatMap h) := by
  have h1 := List.map_append_flatMap_perm F e (fun r => (c r).flatMap h)
  have h2 : (F.flatMap c).flatMap h = F.flatMap fun r => (c r).flatMap h :=
    List.flatMap_assoc F c h
  rw [h2]
  exact h1.symm

theorem eq_of_perm_of_pairwise_noties {α : Type} (R : α → α → Prop) :
    ∀ {l₁ l₂ : List α}, l₁.Perm l₂ → l₁.Pairwise R → l₂.Pairwise R →
      l₁.Pairwise (fun a b => ¬(R a b ∧ R b a)) → l₁ = l₂
  | [], l₂ => fun hp _ _ _ => hp.nil_eq
  | a :: t₁, [] => fun hp _ _ _ => absurd hp.length_eq (by simp)
  | a :: t₁, b :: t₂ => fun hp hs1 hs2 hnt => by
    have hab : a = b := by
      by_contra hne
      have haT2 : a ∈ t₂ := by
        have := hp.subset (List.mem_cons_self a t₁)
        rcases List.mem_cons.mp this with h | h
        · exact absurd h hne
        · exact h
      have hbT1 : b ∈ t₁ := by
        have := hp.symm.subset (List.mem_cons_self b t₂)
        rcases List.mem_cons.mp this with h | h
        · exact absurd h.symm hne
        · exact h
      have hRab : R a b := (List.pairwise_cons.mp hs1).1 b hbT1
      have hRba : R b a := (List.pairwise_cons.mp hs2).1 a haT2
      exact (List.pairwise_cons.mp hnt).1 b hbT1 ⟨hRab, hRba⟩
    subst hab
    have ht : t₁ = t₂ :=
      eq_of_perm_of_pairwise_noties R hp.cons_inv (List.pairwise_cons.mp hs1).2
        (List.pairwise_cons.mp hs2).2 (List.pairwise_cons.mp hnt).2
    rw [ht]

/-! ## Sorting preserves the node multiset and sorts every level -/

/-- Recursively sorting a tree permutes, but never changes, the
collection of nodes. -/
theorem treeEntries_sortNode_perm (le : String → String → Bool) :
    ∀ t : FolderNode, (treeEntries (sortNode le t)).Perm (treeEntries t) := by
  intro t
  induction t using FolderNode.strongInduction with
  | _ i n ps fs ih =>
    rw [sortNode_mk, treeEntries_mk, treeEntries_mk, List.flatMap_map]
    apply List.Perm.cons
    have h1 : ((List.insertionSort (leName le) fs).flatMap fun c =>
          treeEntries (sortNode le c)).Perm (fs.flatMap fun c => treeEntries (sortNode le c)) :=
      List.Perm.flatMap_right _ (List.perm_insertionSort (leName le) fs)
    have h2 : (fs.flatMap fun c => treeEntries (sortNode le c)).Perm
        (fs.flatMap treeEntries) :=
      List.Perm.flatMap_left fs (fun c hc => ih c hc)
    exact h1.trans h2

/-- Forest version of `treeEntries_sortNode_perm`. -/
theorem treeEntries_sortFolders_perm (le : String → String → Bool) (l : List FolderNode) :
    ((sortFolders le l).flatMap treeEntries).Perm (l.flatMap treeEntries) := by
  unfold sortFolders
  rw [List.flatMap_map]
  have h1 : ((List.insertionSort (leName le) l).flatMap fun c =>
        treeEntries (sortNode le c)).Perm (l.flatMap fun c => treeEntries (sortNode le c)) :=
    List.Perm.flatMap_right _ (List.perm_insertionSort (leName le) l)
  have h2 : (l.flatMap fun c => treeEntries (sortNode le c)).Perm (l.flatMap treeEntries) :=
    List.Perm.flatMap_left l (fun c _ => treeEntries_sortNode_perm le c)
  exact h1.trans h2

/-- After `sortNode`, the children list of every node of the result is
sorted by the comparator (for a total and transitive comparator). -/
theorem sortNode_pairwise (le : String → String → Bool)
    (htot : ∀ a b : String, le a b = true ∨ le b a = true)
    (htrans : ∀ a b c : String, le a b = true → le b c = true → le a c = true) :
    ∀ t s : FolderNode, Occurs (sortNode le t) s → s.folders.Pairwise (leName le) := by
  have hmap : ∀ fs : List FolderNode,
      ((List.insertionSort (leName le) fs).map (sortNode le)).Pairwise (leName le) := by
    intro fs
    haveI : IsTotal FolderNode (leName le) := ⟨fun a b => htot a.name b.name⟩
    haveI : IsTrans FolderNode (leName le) :=
      ⟨fun a b c => htrans a.name b.name c.name⟩
    have hsorted : (List.insertionSort (leName le) fs).Pairwise (leName le) :=
      List.sorted_insertionSort (leName le) fs
    refine List.Pairwise.map _ (fun a b hab => ?_) hsorted
    show le (sortNode le a).name (sortNode le b).name = true
    rw [sortNode_name, sortNode_name]
    exact hab
  intro t
  induction t using FolderNode.strongInduction with
  | _ i n ps fs ih =>
    intro s hs
    rw [sortNode_mk] at hs
    cases hs with
    | refl => exact hmap fs
    | step hc hrest =>
      rcases List.mem_map.mp hc with ⟨c0, hc0, rfl⟩
      have hc0fs : c0 ∈ fs := (List.mem_insertionSort _).mp hc0
      exact ih c0 hc0fs s hrest

/-! ## Depth levels of an acyclic listing

A depth labelling `d` witnesses that the effective-parent chains of a
listing are acyclic: root children have depth 0 and every other record
is one deeper than its parent.  The records of depth `j` form level
`j`; the second pass files each level-`(j+1)` record under exactly one
level-`j` parent. -/

/-- The records whose depth label is `j`. -/
def levelRecords (records : List Folder) (d : String → Nat) (j : Nat) : List Folder :=
  records.filter fun r => d r.id == j

/-- Root children are exactly level 0 of any depth labelling. -/
theorem rootRecords_eq_level0 (records : List Folder) (d : String → Nat)
    (hd0 : ∀ r ∈ records, isRootChild (folderIds records) r = true → d r.id = 0)
    (hd1 : ∀ r ∈ records, isRootChild (folderIds records) r = false →
      d r.id = d (effParent r) + 1) :
    rootRecords records = levelRecords records d 0 := by
  apply List.filter_congr
  intro r hr
  cases hroot : isRootChild (folderIds records) r with
  | true => simp [hd0 r hr hroot]
  | false => simp [hd1 r hr hroot]

/-- Unpacking of a false `isRootChild` test. -/
theorem isRootChild_false_iff (ids : List String) (f : Folder) :
    isRootChild ids f = false ↔
      ¬(effParent f = "root") ∧ effParent f ∈ ids := by
  unfold isRootChild
  simp

/-- The second pass files the records of level `j + 1` exactly under
the records of level `j`: one occurrence per record, since ids are
pairwise distinct. -/
theorem level_descent (records : List Folder) (d : String → Nat)
    (hnd : (folderIds records).Nodup)
    (hd0 : ∀ r ∈ records, isRootChild (folderIds records) r = true → d r.id = 0)
    (hd1 : ∀ r ∈ records, isRootChild (folderIds records) r = false →
      d r.id = d (effParent r) + 1) (j : Nat) :
    (levelRecords records d (j + 1)).Perm
      ((levelRecords records d j).flatMap fun q => childRecords records q.id) := by
  have hax : ∀ q : Folder, childRecords records q.id =
      (records.filter fun c => !(isRootChild (folderIds records) c)).filter
        fun c => effParent c == q.id := by
    intro q
    rw [List.filter_filter]
    unfold childRecords
    apply List.filter_congr
    intro c _
    rw [Bool.and_comm]
  have hLnd : ((levelRecords records d j).map Folder.id).Nodup := by
    have hsub : (levelRecords records d j).Sublist records := List.filter_sublist records
    exact List.Nodup.sublist (List.Sublist.map Folder.id hsub) hnd
  have hflip := flatMap_filter_key_perm Folder.id effParent (levelRecords records d j)
    (records.filter fun c => !(isRootChild (folderIds records) c)) hLnd
  have hleft : ((levelRecords records d j).flatMap fun q => childRecords records q.id) =
      (levelRecords records d j).flatMap fun q =>
        (records.filter fun c => !(isRootChild (folderIds records) c)).filter
          fun c => effParent c == q.id :=
    List.flatMap_congr fun q _ => hax q
  have hright : ((records.filter fun c => !(isRootChild (folderIds records) c)).filter
        fun c => (levelRecords records d j).any fun q => q.id == effParent c) =
      levelRecords records d (j + 1) := by
    rw [List.filter_filter]
    apply List.filter_congr
    intro c hc
    cases hroot : isRootChild (folderIds records) c with
    | true =>
      have h0 := hd0 c hc hroot
      simp only [Bool.not_true, Bool.and_false, h0]
      have : ¬(0 = j + 1) := by omega
      simp [this]
    | false =>
      have hdc := hd1 c hc hroot
      rcases (isRootChild_false_iff _ c).mp hroot with ⟨_hnr, hmem⟩
      simp only [Bool.not_false, Bool.and_true]
      by_cases hany : ((levelRecords records d j).any fun q => q.id == effParent c) = true
      · rcases List.any_eq_true.mp hany with ⟨q, hqL, hq⟩
        have hqid : q.id = effParent c := beq_iff_eq.mp hq
        have hqlev : d q.id = j := by
          rcases List.mem_filter.mp hqL with ⟨_, hdq⟩
          exact beq_iff_eq.mp hdq
        rw [hany]
        have hcj : d c.id = j + 1 := by rw [hdc, ← hqid, hqlev]
        simp [hcj]
      · have hany2 : ((levelRecords records d j).any fun q => q.id == effParent c) = false := by
          revert hany
          cases (levelRecords records d j).any fun q => q.id == effParent c <;> simp
        rw [hany2]
        have hne : ¬(d c.id = j + 1) := by
          intro he
          have hpd : d (effParent c) = j := by omega
          have hmem2 : effParent c ∈ records.map Folder.id := hmem
          rcases List.mem_map.mp hmem2 with ⟨q0, hq0, hq0id⟩
          have hq0lev : q0 ∈ levelRecords records d j :=
            List.mem_filter.mpr ⟨hq0, by simp [hq0id, hpd]⟩
          have hcontra : ((levelRecords records d j).any fun q => q.id == effParent c) = true :=
            List.any_eq_true.mpr ⟨q0, hq0lev, by simp [hq0id]⟩
          rw [hcontra] at hany2
          cases hany2
        simp [hne]
  rw [hleft]
  rw [← hright]
  exact hflip.symm

/-- Unrolling the fuelled unfolding along levels: starting the
collection at any list permuting level `m`, with exactly enough fuel to
exhaust the remaining levels, collects the entries of levels
`m, m+1, ..., m+fuel-1` (each once). -/
theorem descEntries_levels_perm (records : List Folder) (d : String → Nat)
    (hnd : (folderIds records).Nodup)
    (hd0 : ∀ r ∈ records, isRootChild (folderIds records) r = true → d r.id = 0)
    (hd1 : ∀ r ∈ records, isRootChild (folderIds records) r = false →
      d r.id = d (effParent r) + 1)
    (hb : ∀ r ∈ records, d r.id < records.length) :
    ∀ (fuel m : Nat) (F : List Folder), m + fuel = records.length →
      F.Perm (levelRecords records d m) →
      (F.flatMap (descEntries records fuel)).Perm
        (((List.range' m fuel).flatMap fun j => levelRecords records d j).map
          fun r => (r.id, r.name)) := by
  intro fuel
  induction fuel with
  | zero =>
    intro m F hm hF
    have hlvl : levelRecords records d m = [] := by
      unfold levelRecords
      rw [List.filter_eq_nil_iff]
      intro r hr
      have hlt := hb r hr
      have hm2 : m = records.length := by omega
      have : ¬(d r.id = m) := by omega
      simp [this]
    rw [hlvl] at hF
    rw [hF.eq_nil]
    simp
  | succ fuel ih =>
    intro m F hm hF
    have hcons : F.flatMap (descEntries records (fuel + 1)) =
        F.flatMap fun r =>
          (r.id, r.name) :: (childRecords records r.id).flatMap (descEntries records fuel) :=
      List.flatMap_congr fun r _ => by rw [descEntries]
    have htel := flatMap_entry_children_perm F (fun r => (r.id, r.name))
      (fun r => childRecords records r.id) (descEntries records fuel)
    have hchild : (F.flatMap fun r => childRecords records r.id).Perm
        (levelRecords records d (m + 1)) := by
      have h1 : (F.flatMap fun r => childRecords records r.id).Perm
          ((levelRecords records d m).flatMap fun r => childRecords records r.id) :=
        List.Perm.flatMap_right _ hF
      exact h1.trans (level_descent records d hnd hd0 hd1 m).symm
    have hih := ih (m + 1) (F.flatMap fun r => childRecords records r.id) (by omega) hchild
    have hmap : (F.map fun r => (r.id, r.name)).Perm
        ((levelRecords records d m).map fun r => (r.id, r.name)) := hF.map _
    have hcomb := List.Perm.append hmap hih
    have hshape :
        ((levelRecords records d m).map fun r => (r.id, r.name)) ++
          (((List.range' (m + 1) fuel).flatMap fun j => levelRecords records d j).map
            fun r => (r.id, r.name)) =
        ((List.range' m (fuel + 1)).flatMap fun j => levelRecords records d j).map
          fun r => (r.id, r.name) := by
      rw [List.range'_succ, List.flatMap_cons, List.map_append]
    rw [hcons]
    rw [← hshape]
    exact htel.trans hcomb

/-- The list produced by `sortFolders` is sorted by the comparator. -/
theorem sortFolders_pairwise (le : String → String → Bool)
    (htot : ∀ a b : String, le a b = true ∨ le b a = true)
    (htrans : ∀ a b c : String, le a b = true → le b c = true → le a c = true)
    (l : List FolderNode) : (sortFolders le l).Pairwise (leName le) := by
  unfold sortFolders
  haveI : IsTotal FolderNode (leName le) := ⟨fun a b => htot a.name b.name⟩
  haveI : IsTrans FolderNode (leName le) := ⟨fun a b c => htrans a.name b.name c.name⟩
  have hsorted : (List.insertionSort (leName le) l).Pairwise (leName le) :=
    List.sorted_insertionSort (leName le) l
  refine List.Pairwise.map _ (fun a b hab => ?_) hsorted
  show le (sortNode le a).name (sortNode le b).name = true
  rw [sortNode_name, sortNode_name]
  exact hab

/-- Main characterisation of the tree build for an acyclic listing
with pairwise-distinct ids: the built tree carries exactly one node
per record (as a multiset of id-name pairs), and every children list,
at the root and recursively below it, is sorted by the comparator. -/
theorem buildTree_complete_and_sorted (le : String → String → Bool)
    (htot : ∀ a b : String, le a b = true ∨ le b a = true)
    (htrans : ∀ a b c : String, le a b = true → le b c = true → le a c = true)
    (records : List Folder) (d : String → Nat)
    (hnd : (folderIds records).Nodup)
    (hd0 : ∀ r ∈ records, isRootChild (folderIds records) r = true → d r.id = 0)
    (hd1 : ∀ r ∈ records, isRootChild (folderIds records) r = false →
      d r.id = d (effParent r) + 1)
    (hb : ∀ r ∈ records, d r.id < records.length) :
    (((buildTree le records).folders.flatMap treeEntries).Perm
        (records.map fun r => (r.id, r.name))) ∧
      (buildTree le records).folders.Pairwise (leName le) ∧
      ∀ c ∈ (buildTree le records).folders, ∀ s, Occurs c s →
        s.folders.Pairwise (leName le) := by
  refine ⟨?_, ?_, ?_⟩
  · show ((sortFolders le ((rootRecords records).map
        (buildNode records records.length))).flatMap treeEntries).Perm
      (records.map fun r => (r.id, r.name))
    have h1 := treeEntries_sortFolders_perm le
      ((rootRecords records).map (buildNode records records.length))
    have h2 : ((rootRecords records).map (buildNode records records.length)).flatMap
        treeEntries = (rootRecords records).flatMap (descEntries records records.length) := by
      rw [List.flatMap_map]
      exact List.flatMap_congr fun r _ => treeEntries_buildNode records records.length r
    have h3 : (rootRecords records).Perm (levelRecords records d 0) := by
      rw [rootRecords_eq_level0 records d hd0 hd1]
    have h4 := descEntries_levels_perm records d hnd hd0 hd1 hb records.length 0
      (rootRecords records) (by omega) h3
    have h5 := perm_range_flatMap_filter (fun r : Folder => d r.id) records.length records hb
    have h6 : ((List.range records.length).flatMap fun j =>
        records.filter fun a => d a.id == j) =
        (List.range' 0 records.length).flatMap fun j => levelRecords records d j := by
      rw [← List.range_eq_range']
      exact List.flatMap_congr fun j _ => rfl
    rw [h6] at h5
    refine h1.trans ?_
    rw [h2]
    exact h4.trans (h5.map fun r => (r.id, r.name)).symm
  · exact sortFolders_pairwise le htot htrans _
  · intro c hc s hs
    have hc2 : c ∈ (List.insertionSort (leName le)
        ((rootRecords records).map (buildNode records records.length))).map (sortNode le) := hc
    rcases List.mem_map.mp hc2 with ⟨c0, _, rfl⟩
    exact sortNode_pairwise le htot htrans c0 s hs

/-! ## Determinism of the build under permutations of the listing -/

/-- Membership tests do not distinguish permuted listings. -/
theorem contains_eq_of_perm {l l2 : List String} (h : l.Perm l2) (x : String) :
    l.contains x = l2.contains x := by
  by_cases hx : x ∈ l
  · have hx2 : x ∈ l2 := h.subset hx
    simp [hx, hx2]
  · have hx2 : ¬(x ∈ l2) := fun hm => hx (h.symm.subset hm)
    simp [hx, hx2]

/-- The root-child test of the second pass does not distinguish
permuted listings. -/
theorem isRootChild_perm {records records2 : List Folder} (h : records.Perm records2)
    (c : Folder) :
    isRootChild (folderIds records) c = isRootChild (folderIds records2) c := by
  unfold isRootChild
  have h2 : (folderIds records).Perm (folderIds records2) := h.map Folder.id
  rw [contains_eq_of_perm h2 (effParent c)]

/-- The root-child bucket of a permuted listing is a permutation. -/
theorem rootRecords_perm {records records2 : List Folder} (h : records.Perm records2) :
    (rootRecords records).Perm (rootRecords records2) := by
  unfold rootRecords
  have h2 : records2.filter (isRootChild (folderIds records2)) =
      records2.filter (isRootChild (folderIds records)) :=
    List.filter_congr fun c _ => (isRootChild_perm h c).symm
  rw [h2]
  exact List.Perm.filter _ h

/-- Each child bucket of a permuted listing is a permutation. -/
theorem childRecords_perm {records records2 : List Folder} (h : records.Perm records2)
    (p : String) : (childRecords records p).Perm (childRecords records2 p) := by
  unfold childRecords
  have h2 : (records2.filter fun c =>
        !(isRootChild (folderIds records2) c) && effParent c == p) =
      records2.filter fun c => !(isRootChild (folderIds records) c) && effParent c == p :=
    List.filter_congr fun c _ => by rw [isRootChild_perm h c]
  rw [h2]
  exact List.Perm.filter _ h

/-- `buildNode` keeps the name of the record. -/
theorem buildNode_name (records : List Folder) (fuel : Nat) (r : Folder) :
    (buildNode records fuel r).name = r.name := by
  cases fuel <;> rfl

/-- Absence of comparator ties, as a relation on folder records. -/
def noTie (le : String → String → Bool) (a b : Folder) : Prop :=
  ¬(le a.name b.name = true ∧ le b.name a.name = true)

instance instDecNoTie (le : String → String → Bool) : DecidableRel (noTie le) := fun a b =>
  inferInstanceAs (Decidable (¬(le a.name b.name = true ∧ le b.name a.name = true)))

/-- Sorting a built node is invariant under permuting the listing,
provided ids are pairwise distinct and no two records of a common
child bucket tie under the comparator. -/
theorem sortNode_buildNode_perm_eq (le : String → String → Bool)
    (htot : ∀ a b : String, le a b = true ∨ le b a = true)
    (htrans : ∀ a b c : String, le a b = true → le b c = true → le a c = true)
    {records records2 : List Folder} (hperm : records.Perm records2)
    (hsib : ∀ p, (childRecords records p).Pairwise (noTie le)) :
    ∀ (fuel : Nat) (r : Folder),
      sortNode le (buildNode records fuel r) = sortNode le (buildNode records2 fuel r) := by
  haveI : IsTotal FolderNode (leName le) := ⟨fun a b => htot a.name b.name⟩
  haveI : IsTrans FolderNode (leName le) := ⟨fun a b c => htrans a.name b.name c.name⟩
  intro fuel
  induction fuel with
  | zero => intro r; rfl
  | succ fuel ih =>
    intro r
    rw [buildNode, buildNode, sortNode_mk, sortNode_mk]
    have hcomm : ∀ (cs : List FolderNode),
        (List.insertionSort (leName le) cs).map (sortNode le) =
          List.insertionSort (leName le) (cs.map (sortNode le)) := by
      intro cs
      apply List.map_insertionSort
      intro a _ b _
      unfold leName
      rw [sortNode_name, sortNode_name]
    rw [hcomm, hcomm, List.map_map, List.map_map]
    congr 1
    have hA2 : (childRecords records2 r.id).map (sortNode le ∘ buildNode records2 fuel) =
        (childRecords records2 r.id).map (sortNode le ∘ buildNode records fuel) :=
      List.map_congr_left fun c _ => (ih c).symm
    rw [hA2]
    have hAperm : ((childRecords records r.id).map
          (sortNode le ∘ buildNode records fuel)).Perm
        ((childRecords records2 r.id).map (sortNode le ∘ buildNode records fuel)) :=
      (childRecords_perm hperm r.id).map _
    have hname : ∀ c : Folder,
        ((sortNode le ∘ buildNode records fuel) c).name = c.name := by
      intro c
      show (sortNode le (buildNode records fuel c)).name = c.name
      rw [sortNode_name, buildNode_name]
    have hnt : ((childRecords records r.id).map
          (sortNode le ∘ buildNode records fuel)).Pairwise
        fun a b => ¬(leName le a b ∧ leName le b a) := by
      refine List.Pairwise.map _ (fun a b hab => ?_) (hsib r.id)
      unfold leName
      rw [hname a, hname b]
      exact hab
    have hntsort : (List.insertionSort (leName le) ((childRecords records r.id).map
          (sortNode le ∘ buildNode records fuel))).Pairwise
        fun a b => ¬(leName le a b ∧ leName le b a) := by
      refine (List.Perm.pairwise_iff ?_ (List.perm_insertionSort _ _)).mpr hnt
      intro x y hxy hyx
      exact hxy ⟨hyx.2, hyx.1⟩
    have hs1 : (List.insertionSort (leName le) ((childRecords records r.id).map
          (sortNode le ∘ buildNode records fuel))).Pairwise (leName le) :=
      List.sorted_insertionSort (leName le) _
    have hs2 : (List.insertionSort (leName le) ((childRecords records2 r.id).map
          (sortNode le ∘ buildNode records fuel))).Pairwise (leName le) :=
      List.sorted_insertionSort (leName le) _
    have hp : (List.insertionSort (leName le) ((childRecords records r.id).map
          (sortNode le ∘ buildNode records fuel))).Perm
        (List.insertionSort (leName le) ((childRecords records2 r.id).map
          (sortNode le ∘ buildNode records fuel))) :=
      (List.perm_insertionSort _ _).trans
        (hAperm.trans (List.perm_insertionSort _ _).symm)
    exact eq_of_perm_of_pairwise_noties (leName le) hp hs1 hs2 hntsort

/-- The whole built tree is invariant under permuting the listing,
provided ids are pairwise distinct and no two records of a common
sibling group (the root group or any child bucket) tie under the
comparator. -/
theorem buildTree_perm_eq (le : String → String → Bool)
    (htot : ∀ a b : String, le a b = true ∨ le b a = true)
    (htrans : ∀ a b c : String, le a b = true → le b c = true → le a c = true)
    (records records2 : List Folder) (hperm : records.Perm records2)
    (_hnd : (folderIds records).Nodup)
    (hroot : (rootRecords records).Pairwise (noTie le))
    (hsib : ∀ p, (childRecords records p).Pairwise (noTie le)) :
    buildTree le records = buildTree le records2 := by
  haveI : IsTotal FolderNode (leName le) := ⟨fun a b => htot a.name b.name⟩
  haveI : IsTrans FolderNode (leName le) := ⟨fun a b c => htrans a.name b.name c.name⟩
  unfold buildTree sortFolders
  congr 1
  have hcomm : ∀ (cs : List FolderNode),
      (List.insertionSort (leName le) cs).map (sortNode le) =
        List.insertionSort (leName le) (cs.map (sortNode le)) := by
    intro cs
    apply List.map_insertionSort
    intro a _ b _
    unfold leName
    rw [sortNode_name, sortNode_name]
  rw [hcomm, hcomm, List.map_map, List.map_map]
  have hlen : records2.length = records.length := hperm.length_eq.symm
  rw [hlen]
  have hA2 : (rootRecords records2).map (sortNode le ∘ buildNode records2 records.length) =
      (rootRecords records2).map (sortNode le ∘ buildNode records records.length) :=
    List.map_congr_left fun c _ => (sortNode_buildNode_perm_eq le htot htrans hperm hsib
      records.length c).symm
  rw [hA2]
  have hAperm : ((rootRecords records).map
        (sortNode le ∘ buildNode records records.length)).Perm
      ((rootRecords records2).map (sortNode le ∘ buildNode records records.length)) :=
    (rootRecords_perm hperm).map _
  have hname : ∀ c : Folder,
      ((sortNode le ∘ buildNode records records.length) c).name = c.name := by
    intro c
    show (sortNode le (buildNode records records.length c)).name = c.name
    rw [sortNode_name, buildNode_name]
  have hnt : ((rootRecords records).map
        (sortNode le ∘ buildNode records records.length)).Pairwise
      fun a b => ¬(leName le a b ∧ leName le b a) := by
    refine List.Pairwise.map _ (fun a b hab => ?_) hroot
    unfold leName
    rw [hname a, hname b]
    exact hab
  have hntsort : (List.insertionSort (leName le) ((rootRecords records).map
        (sortNode le ∘ buildNode records records.length))).Pairwise
      fun a b => ¬(leName le a b ∧ leName le b a) := by
    refine (List.Perm.pairwise_iff ?_ (List.perm_insertionSort _ _)).mpr hnt
    intro x y hxy hyx
    exact hxy ⟨hyx.2, hyx.1⟩
  have hs1 : (List.insertionSort (leName le) ((rootRecords records).map
        (sortNode le ∘ buildNode records records.length))).Pairwise (leName le) :=
    List.sorted_insertionSort (leName le) _
  have hs2 : (List.insertionSort (leName le) ((rootRecords records2).map
        (sortNode le ∘ buildNode records records.length))).Pairwise (leName le) :=
    List.sorted_insertionSort (leName le) _
  have hp : (List.insertionSort (leName le) ((rootRecords records).map
        (sortNode le ∘ buildNode records records.length))).Perm
      (List.insertionSort (leName le) ((rootRecords records2).map
        (sortNode le ∘ buildNode records records.length))) :=
    (List.perm_insertionSort _ _).trans
      (hAperm.trans (List.perm_insertionSort _ _).symm)
  exact eq_of_perm_of_pairwise_noties (leName le) hp hs1 hs2 hntsort

/-! ## Termination behaviour of the pagination loop -/

/-- If the provider returns a continuation token on every page, the
loop is still running after any number of iterations. -/
theorem listLoopAux_none_of_forever (pages : Nat → FolderPage)
    (h : ∀ n, (pages n).nextPageToken ≠ none) :
    ∀ (fuel i : Nat) (acc : List Folder), listLoopAux pages fuel i acc = none := by
  intro fuel
  induction fuel with
  | zero => intro i acc; rfl
  | succ fuel ih =>
    intro i acc
    cases htok : (pages i).nextPageToken with
    | none => exact absurd htok (h i)
    | some t => simp [listLoopAux, htok, ih (i + 1)]

/-- As soon as some page carries no continuation token, enough fuel
makes the loop return. -/
theorem listLoopAux_isSome_of_token_none (pages : Nat → FolderPage) :
    ∀ (k i : Nat) (acc : List Folder), (pages (i + k)).nextPageToken = none →
      (listLoopAux pages (k + 1) i acc).isSome := by
  intro k
  induction k with
  | zero =>
    intro i acc h
    rw [Nat.add_zero] at h
    simp [listLoopAux, h]
  | succ k ih =>
    intro i acc h
    cases htok : (pages i).nextPageToken with
    | none => simp [listLoopAux, htok]
    | some t =>
      simp only [listLoopAux, htok]
      apply ih (i + 1)
      have heq : i + 1 + k = i + (k + 1) := by omega
      rw [heq]
      exact h

/-- The pagination loop terminates exactly when the provider
eventually returns a page without a continuation token. -/
theorem listAllFolders_terminates_iff (pages : Nat → FolderPage) :
    (∃ fuel, (listAllFolders pages fuel).isSome = true) ↔
      ∃ n, (pages n).nextPageToken = none := by
  constructor
  · rintro ⟨fuel, hf⟩
    by_contra hn
    push_neg at hn
    unfold listAllFolders at hf
    rw [listLoopAux_none_of_forever pages hn fuel 0 []] at hf
    simp at hf
  · rintro ⟨n, hn⟩
    refine ⟨n + 1, ?_⟩
    unfold listAllFolders
    apply listLoopAux_isSome_of_token_none pages n 0 []
    simpa using hn

/-! ## Small helper lemmas for the claim statements -/

/-- `buildNode` keeps the id of the record. -/
theorem buildNode_id (records : List Folder) (fuel : Nat) (r : Folder) :
    (buildNode records fuel r).id = r.id := by
  cases fuel <;> rfl

/-- The first declared parent of a record, before any falsiness
collapse: `folder.parents?.[0]` as an optional value. -/
def firstParent (f : Folder) : Option String :=
  match f.parents with
  | none => none
  | some l => l.head?

/-- Characterisation of the resolver on the path where the credential
is set, the listing succeeded and is nonempty, and the completion call
produced a content string: the decision is the quote-stripped,
whitespace-trimmed answer looked up case-insensitively in the listing. -/
theorem findMatchingFolder_spec (key hint : Option String) (nm : String) (meta : FileMeta)
    (fs : List Folder) (complete : String → String → Except String (Option String))
    (ans : String) (hkey : strTruthy key = true) (hfs : ¬(fs = []))
    (hc : complete (systemPrompt fs) (userPrompt hint nm meta) = Except.ok (some ans)) :
    findMatchingFolder key hint nm meta (Except.ok fs) complete =
      if cleanAnswer ans == "" || jsToLower (cleanAnswer ans) == "none" then none
      else fs.find? fun f => jsToLower f.name == jsToLower (cleanAnswer ans) := by
  unfold findMatchingFolder
  rw [hkey]
  cases fs with
  | nil => exact absurd rfl hfs
  | cons a t =>
    simp only [Bool.not_true, Bool.false_eq_true, if_false]
    have hlen : ((a :: t).length == 0) = false := by simp
    rw [hlen, if_neg (by simp), hc]

/-! ## Claims -/

/-- Claim C2: the resolver never throws to its caller (it is a total
function of its oracles); it returns no match immediately when no AI
credential is configured (missing or empty key); it returns no match
when the folder listing is empty, regardless of hint content; and a
listing error, a completion request error, or a missing or unparseable
completion payload each degrade to no match. -/
theorem claim_C2 :
    (∀ (key hint : Option String) (nm : String) (meta : FileMeta)
        (listing : Except String (List Folder))
        (complete : String → String → Except String (Option String)),
      strTruthy key = false →
        findMatchingFolder key hint nm meta listing complete = none) ∧
    (∀ (key hint : Option String) (nm : String) (meta : FileMeta) (e : String)
        (complete : String → String → Except String (Option String)),
      findMatchingFolder key hint nm meta (Except.error e) complete = none) ∧
    (∀ (key hint : Option String) (nm : String) (meta : FileMeta)
        (complete : String → String → Except String (Option String)),
      findMatchingFolder key hint nm meta (Except.ok []) complete = none) ∧
    (∀ (key hint : Option String) (nm : String) (meta : FileMeta) (fs : List Folder)
        (complete : String → String → Except String (Option String)) (e : String),
      complete (systemPrompt fs) (userPrompt hint nm meta) = Except.error e →
        findMatchingFolder key hint nm meta (Except.ok fs) complete = none) ∧
    (∀ (key hint : Option String) (nm : String) (meta : FileMeta) (fs : List Folder)
        (complete : String → String → Except String (Option String)),
      complete (systemPrompt fs) (userPrompt hint nm meta) = Except.ok none →
        findMatchingFolder key hint nm meta (Except.ok fs) complete = none) := by
  refine ⟨?_, ?_, ?_, ?_, ?_⟩
  · intro key hint nm meta listing complete h
    unfold findMatchingFolder
    rw [h]
    rfl
  · intro key hint nm meta e complete
    unfold findMatchingFolder
    cases strTruthy key <;> simp
  · intro key hint nm meta complete
    unfold findMatchingFolder
    cases strTruthy key <;> simp
  · intro key hint nm meta fs complete e hc
    unfold findMatchingFolder
    cases htk : strTruthy key with
    | false => simp
    | true =>
      cases fs with
      | nil => simp
      | cons a t =>
        simp only [Bool.not_true, Bool.false_eq_true, if_false]
        rw [if_neg (by simp), hc]
  · intro key hint nm meta fs complete hc
    unfold findMatchingFolder
    cases htk : strTruthy key with
    | false => simp
    | true =>
      cases fs with
      | nil => simp
      | cons a t =>
        simp only [Bool.not_true, Bool.false_eq_true, if_false]
        rw [if_neg (by simp), hc]

/-- Witness for claim C2 at concrete inputs: a missing key, an empty
key, a failed listing, an empty listing, a failed completion call, and
a completion payload without content all produce no match. -/
theorem claim_C2_witness :
    findMatchingFolder none (some "bills") "a.pdf" ⟨"pdf", "Document", 3⟩
        (Except.ok [⟨"1", "Invoices", none⟩]) (fun _ _ => Except.ok (some "Invoices")) =
      none ∧
    findMatchingFolder (some "") (some "bills") "a.pdf" ⟨"pdf", "Document", 3⟩
        (Except.ok [⟨"1", "Invoices", none⟩]) (fun _ _ => Except.ok (some "Invoices")) =
      none ∧
    findMatchingFolder (some "key") (some "bills") "a.pdf" ⟨"pdf", "Document", 3⟩
        (Except.error "network down") (fun _ _ => Except.ok (some "Invoices")) = none ∧
    findMatchingFolder (some "key") (some "bills") "a.pdf" ⟨"pdf", "Document", 3⟩
        (Except.ok []) (fun _ _ => Except.ok (some "Invoices")) = none ∧
    findMatchingFolder (some "key") (some "bills") "a.pdf" ⟨"pdf", "Document", 3⟩
        (Except.ok [⟨"1", "Invoices", none⟩]) (fun _ _ => Except.error "timeout") = none ∧
    findMatchingFolder (some "key") (some "bills") "a.pdf" ⟨"pdf", "Document", 3⟩
        (Except.ok [⟨"1", "Invoices", none⟩]) (fun _ _ => Except.ok none) = none :=
  ⟨claim_C2.1 none (some "bills") "a.pdf" ⟨"pdf", "Document", 3⟩ _ _ (by decide),
   claim_C2.1 (some "") (some "bills") "a.pdf" ⟨"pdf", "Document", 3⟩ _ _ (by decide),
   claim_C2.2.1 (some "key") (some "bills") "a.pdf" ⟨"pdf", "Document", 3⟩ "network down" _,
   claim_C2.2.2.1 (some "key") (some "bills") "a.pdf" ⟨"pdf", "Document", 3⟩ _,
   claim_C2.2.2.2.1 (some "key") (some "bills") "a.pdf" ⟨"pdf", "Document", 3⟩ _ _ "timeout" rfl,
   claim_C2.2.2.2.2 (some "key") (some "bills") "a.pdf" ⟨"pdf", "Document", 3⟩ _ _ rfl⟩

/-- Claim C5: on the path where a completion answer is produced, the
resolver trims whitespace and strips surrounding quote characters; it
returns no match if the cleaned text is empty or lower-cases to the
literal `none`; otherwise the decision is exactly `List.find?` with a
case-insensitive name-equality predicate over the candidate listing, so
an answer matching no candidate yields no match and no exception. -/
theorem claim_C5 (key hint : Option String) (nm : String) (meta : FileMeta)
    (fs : List Folder) (complete : String → String → Except String (Option String))
    (ans : String) (hkey : strTruthy key = true) (hfs : ¬(fs = []))
    (hc : complete (systemPrompt fs) (userPrompt hint nm meta) = Except.ok (some ans)) :
    (cleanAnswer ans = "" ∨ jsToLower (cleanAnswer ans) = "none" →
      findMatchingFolder key hint nm meta (Except.ok fs) complete = none) ∧
    (¬(cleanAnswer ans = "") → ¬(jsToLower (cleanAnswer ans) = "none") →
      findMatchingFolder key hint nm meta (Except.ok fs) complete =
        fs.find? fun f => jsToLower f.name == jsToLower (cleanAnswer ans)) ∧
    ((∀ f ∈ fs, ¬(jsToLower f.name = jsToLower (cleanAnswer ans))) →
      findMatchingFolder key hint nm meta (Except.ok fs) complete = none) := by
  have hspec := findMatchingFolder_spec key hint nm meta fs complete ans hkey hfs hc
  refine ⟨?_, ?_, ?_⟩
  · intro hnone
    rw [hspec, if_pos]
    rcases hnone with h | h
    · simp [h]
    · simp [h]
  · intro h1 h2
    rw [hspec, if_neg]
    simp [h1, h2]
  · intro hnomatch
    rw [hspec]
    by_cases hnone : (cleanAnswer ans == "" || jsToLower (cleanAnswer ans) == "none") = true
    · rw [if_pos hnone]
    · rw [if_neg hnone]
      rw [List.find?_eq_none]
      intro f hf
      simp only [beq_iff_eq]
      exact hnomatch f hf

/-- Witness for claim C5: the spec examples.  An answer `Invoices`
(with quotes and padding) matches a candidate named `invoices`
case-insensitively; an answer `Invoice` does not match a candidate
named `Invoices`; an answer `NONE` yields no match. -/
theorem claim_C5_witness :
    findMatchingFolder (some "key") (some "bills") "a.pdf" ⟨"pdf", "Document", 3⟩
        (Except.ok [⟨"1", "invoices", none⟩])
        (fun _ _ => Except.ok (some " \"Invoices\" ")) = some ⟨"1", "invoices", none⟩ ∧
    findMatchingFolder (some "key") (some "bills") "a.pdf" ⟨"pdf", "Document", 3⟩
        (Except.ok [⟨"1", "Invoices", none⟩])
        (fun _ _ => Except.ok (some "Invoice")) = none ∧
    findMatchingFolder (some "key") (some "bills") "a.pdf" ⟨"pdf", "Document", 3⟩
        (Except.ok [⟨"1", "Invoices", none⟩])
        (fun _ _ => Except.ok (some "NONE")) = none := by
  refine ⟨?_, ?_, ?_⟩
  · have h := (claim_C5 (some "key") (some "bills") "a.pdf" ⟨"pdf", "Document", 3⟩
      [⟨"1", "invoices", none⟩] (fun _ _ => Except.ok (some " \"Invoices\" "))
      " \"Invoices\" " (by decide) (by decide) rfl).2.1 (by decide) (by decide)
    rw [h]
    decide
  · have h := (claim_C5 (some "key") (some "bills") "a.pdf" ⟨"pdf", "Document", 3⟩
      [⟨"1", "Invoices", none⟩] (fun _ _ => Except.ok (some "Invoice"))
      "Invoice" (by decide) (by decide) rfl).2.2 (by decide)
    exact h
  · exact (claim_C5 (some "key") (some "bills") "a.pdf" ⟨"pdf", "Document", 3⟩
      [⟨"1", "Invoices", none⟩] (fun _ _ => Except.ok (some "NONE"))
      "NONE" (by decide) (by decide) rfl).1 (by decide)

/-- Claim C10: when several candidates tie under the case-insensitive
comparison, the resolver returns the candidate occurring earliest in
the accumulated listing order, and (being `Option`-valued) selects
exactly one folder. -/
theorem claim_C10 (key hint : Option String) (nm : String) (meta : FileMeta)
    (complete : String → String → Except String (Option String)) (ans : String)
    (pre post : List Folder) (f : Folder)
    (hkey : strTruthy key = true)
    (hc : complete (systemPrompt (pre ++ f :: post)) (userPrompt hint nm meta) =
      Except.ok (some ans))
    (h1 : ¬(cleanAnswer ans = "")) (h2 : ¬(jsToLower (cleanAnswer ans) = "none"))
    (hpre : ∀ g ∈ pre, ¬(jsToLower g.name = jsToLower (cleanAnswer ans)))
    (hf : jsToLower f.name = jsToLower (cleanAnswer ans)) :
    findMatchingFolder key hint nm meta (Except.ok (pre ++ f :: post)) complete = some f := by
  have hspec := findMatchingFolder_spec key hint nm meta (pre ++ f :: post) complete ans hkey
    (by simp) hc
  rw [hspec, if_neg (by simp [h1, h2])]
  rw [List.find?_append]
  have hprenone : (pre.find? fun g => jsToLower g.name == jsToLower (cleanAnswer ans)) = none := by
    rw [List.find?_eq_none]
    intro g hg
    simp only [beq_iff_eq]
    exact hpre g hg
  rw [hprenone, Option.none_or]
  exact List.find?_cons_of_pos post (by simp [hf])

/-- Witness for claim C10: two candidates named `Finance` (differing in
case and id); the resolver picks the one listed first. -/
theorem claim_C10_witness :
    findMatchingFolder (some "key") (some "quarterly finance") "report.pdf"
        ⟨"pdf", "Document", 3⟩
        (Except.ok [⟨"0", "Marketing", none⟩, ⟨"1", "finance", none⟩, ⟨"2", "Finance", none⟩])
        (fun _ _ => Except.ok (some "Finance")) = some ⟨"1", "finance", none⟩ :=
  claim_C10 (some "key") (some "quarterly finance") "report.pdf" ⟨"pdf", "Document", 3⟩
    (fun _ _ => Except.ok (some "Finance")) "Finance"
    [⟨"0", "Marketing", none⟩] [⟨"2", "Finance", none⟩] ⟨"1", "finance", none⟩
    (by decide) rfl (by decide) (by decide) (by decide) (by decide)

/-- Counterexample to claim C1 as stated: a listing with
pairwise-distinct ids need not have each record in the tree.  A record
declaring itself as its first parent passes the `folderMap.has` test,
is filed under its own children list, and never reaches `rootFolders`,
so the returned tree holds no node at all for it. -/
theorem claim_C1_counterexample :
    (folderIds [Folder.mk "a" "A" (some ["a"])]).Nodup ∧
    ¬(((buildTree demoLe [Folder.mk "a" "A" (some ["a"])]).folders.flatMap
          treeEntries).Perm
        ([Folder.mk "a" "A" (some ["a"])].map fun r => (r.id, r.name))) := by
  decide

/-- Claim C1 (amended with acyclicity): for a listing with
pairwise-distinct ids whose effective-parent chains are acyclic
(witnessed by a depth labelling: root children at depth 0, every other
record one deeper than its parent, depths below the record count), the
built tree contains exactly one node per record, and every children
list — the synthetic root list and, recursively, each node list — is
sorted ascending by name under the (total, transitive) comparator. -/
theorem claim_C1 (le : String → String → Bool)
    (htot : ∀ a b : String, le a b = true ∨ le b a = true)
    (htrans : ∀ a b c : String, le a b = true → le b c = true → le a c = true)
    (records : List Folder) (d : String → Nat)
    (hnd : (folderIds records).Nodup)
    (hd0 : ∀ r ∈ records, isRootChild (folderIds records) r = true → d r.id = 0)
    (hd1 : ∀ r ∈ records, isRootChild (folderIds records) r = false →
      d r.id = d (effParent r) + 1)
    (hb : ∀ r ∈ records, d r.id < records.length) :
    (((buildTree le records).folders.flatMap treeEntries).Perm
        (records.map fun r => (r.id, r.name))) ∧
      (buildTree le records).folders.Pairwise (leName le) ∧
      ∀ c ∈ (buildTree le records).folders, ∀ s, Occurs c s →
        s.folders.Pairwise (leName le) :=
  buildTree_complete_and_sorted le htot htrans records d hnd hd0 hd1 hb

/-- Witness for claim C1: the spec scenario listing (Zeta and Beta at
the root, Alpha under Zeta), with its depth labelling. -/
theorem claim_C1_witness :
    ((folderIds [Folder.mk "1" "Zeta" none, Folder.mk "2" "Alpha" (some ["1"]),
        Folder.mk "3" "Beta" none]).Nodup) ∧
    ((((buildTree demoLe [Folder.mk "1" "Zeta" none, Folder.mk "2" "Alpha" (some ["1"]),
          Folder.mk "3" "Beta" none]).folders.flatMap treeEntries).Perm
        ([Folder.mk "1" "Zeta" none, Folder.mk "2" "Alpha" (some ["1"]),
          Folder.mk "3" "Beta" none].map fun r => (r.id, r.name))) ∧
      (buildTree demoLe [Folder.mk "1" "Zeta" none, Folder.mk "2" "Alpha" (some ["1"]),
          Folder.mk "3" "Beta" none]).folders.Pairwise (leName demoLe) ∧
      ∀ c ∈ (buildTree demoLe [Folder.mk "1" "Zeta" none,
          Folder.mk "2" "Alpha" (some ["1"]), Folder.mk "3" "Beta" none]).folders,
        ∀ s, Occurs c s → s.folders.Pairwise (leName demoLe)) :=
  ⟨by decide,
   claim_C1 demoLe demoLe_total demoLe_trans
     [Folder.mk "1" "Zeta" none, Folder.mk "2" "Alpha" (some ["1"]),
       Folder.mk "3" "Beta" none]
     (fun s => if s = "2" then 1 else 0)
     (by decide) (by decide) (by decide) (by decide)⟩

/-- Claim C4: in a listing with pairwise-distinct ids (guaranteed by
the provider), a record that declares no parent, or whose first
declared parent id is absent from the listing, is attached as a direct
child of the synthetic root — it is never dropped and never causes an error (the
build is a total function) — and every node of the returned tree is
reachable from the root list in finitely many child steps. -/
theorem claim_C4 (le : String → String → Bool) (records : List Folder) (r : Folder)
    (_hnd : (folderIds records).Nodup) (hr : r ∈ records)
    (hp : firstParent r = none ∨ ∃ p, firstParent r = some p ∧ p ∉ folderIds records) :
    (∃ n ∈ (buildTree le records).folders, n.id = r.id ∧ n.name = r.name) ∧
      ∀ c ∈ (buildTree le records).folders, ∀ s, Occurs c s → ∃ k, OccursAt k c s := by
  constructor
  · have heff : effParent r = "root" ∨ effParent r ∉ folderIds records := by
      unfold effParent
      unfold firstParent at hp
      cases hpar : r.parents with
      | none => exact Or.inl rfl
      | some l =>
        rw [hpar] at hp
        dsimp only at hp
        dsimp only
        cases hl : l.head? with
        | none => exact Or.inl rfl
        | some p =>
          dsimp only
          rcases hp with h | ⟨q, hq1, hq2⟩
          · rw [hl] at h
            cases h
          · rw [hl] at hq1
            have hqp : q = p := by
              injection hq1 with h2
              exact h2.symm
            subst hqp
            by_cases hpe : q = ""
            · exact Or.inl (by rw [if_pos hpe])
            · rw [if_neg hpe]
              exact Or.inr hq2
    have hroot : isRootChild (folderIds records) r = true := by
      unfold isRootChild
      rcases heff with h | h
      · simp [h]
      · have hcf : (folderIds records).contains (effParent r) = false := by
          revert h
          cases hc : (folderIds records).contains (effParent r)
          · intro _
            rfl
          · intro h
            exact absurd (by simpa using hc) h
        simp only [hcf, Bool.not_false, Bool.or_true]
    have hmem : r ∈ rootRecords records := List.mem_filter.mpr ⟨hr, hroot⟩
    refine ⟨sortNode le (buildNode records records.length r), ?_, ?_, ?_⟩
    · show sortNode le (buildNode records records.length r) ∈
        (List.insertionSort (leName le)
          ((rootRecords records).map (buildNode records records.length))).map (sortNode le)
      exact List.mem_map_of_mem _ ((List.mem_insertionSort _).mpr
        (List.mem_map_of_mem _ hmem))
    · rw [sortNode_id, buildNode_id]
    · rw [sortNode_name, buildNode_name]
  · intro c _ s hs
    exact hs.exists_occursAt

/-- Witness for claim C4: an orphan record pointing at an id absent
from the listing and a record with no parents field both surface as
root children. -/
theorem claim_C4_witness :
    (Folder.mk "x" "Orphan" (some ["zz"]) ∈
        [Folder.mk "x" "Orphan" (some ["zz"]), Folder.mk "y" "Loose" none]) ∧
    (∃ n ∈ (buildTree demoLe [Folder.mk "x" "Orphan" (some ["zz"]),
        Folder.mk "y" "Loose" none]).folders, n.id = "x" ∧ n.name = "Orphan") ∧
      ∀ c ∈ (buildTree demoLe [Folder.mk "x" "Orphan" (some ["zz"]),
          Folder.mk "y" "Loose" none]).folders,
        ∀ s, Occurs c s → ∃ k, OccursAt k c s :=
  ⟨by decide,
   claim_C4 demoLe [Folder.mk "x" "Orphan" (some ["zz"]), Folder.mk "y" "Loose" none]
     (Folder.mk "x" "Orphan" (some ["zz"])) (by decide) (by decide)
     (Or.inr ⟨"zz", rfl, by decide⟩)⟩


/-- Counterexample to claim C3 as stated: with a successful store and a
resolver that matches a folder, a failing parent fetch (step 4) is
caught by the outer catch clause, so the endpoint responds with
`success:false` at a server-error status rather than `success:true`. -/
theorem claim_C3_counterexample :
    (uploadEndpoint true (some ⟨"report.pdf", "application/pdf", 10⟩)
        (some "quarterly finance") (some "key")
        (Except.ok ⟨"fid", "report.pdf", "link", ["rootdir"]⟩)
        (Except.ok [⟨"f1", "Finance", none⟩])
        (fun _ _ => Except.ok (some "Finance"))
        (Except.error "parent fetch failed")
        (Except.ok ⟨"fid", "report.pdf", "link", ["f1"]⟩)).success = false ∧
    (uploadEndpoint true (some ⟨"report.pdf", "application/pdf", 10⟩)
        (some "quarterly finance") (some "key")
        (Except.ok ⟨"fid", "report.pdf", "link", ["rootdir"]⟩)
        (Except.ok [⟨"f1", "Finance", none⟩])
        (fun _ _ => Except.ok (some "Finance"))
        (Except.error "parent fetch failed")
        (Except.ok ⟨"fid", "report.pdf", "link", ["f1"]⟩)).status = 500 := by
  decide

/-- Definitional normal form of the upload endpoint after a successful
authentication, file check and store. -/
theorem uploadEndpoint_store_nf (f : ReqFile) (hint key : Option String) (c : CreatedFile)
    (listing : Except String (List Folder))
    (complete : String → String → Except String (Option String))
    (gp : Except String (List String)) (up : Except String CreatedFile) :
    uploadEndpoint true (some f) hint key (Except.ok c) listing complete gp up =
      if strTruthy hint || !(f.originalname == "") then
        match findMatchingFolder key hint f.originalname
            ⟨lastSplitComponent f.originalname, getFileType f.originalname, f.size⟩
            listing complete with
        | some folder =>
          (match gp with
           | Except.error e =>
             ⟨statusFor e, false, none, none, e,
               [DriveAction.createFile, DriveAction.getParents]⟩
           | Except.ok _ =>
             match up with
             | Except.error e =>
               ⟨statusFor e, false, none, none, e,
                 [DriveAction.createFile, DriveAction.getParents, DriveAction.moveUpdate]⟩
             | Except.ok _ =>
               ⟨200, true, some c, some true,
                 "File \"" ++ f.originalname ++ "\" uploaded successfully" ++
                   " and moved to \"" ++ folder.name ++ "\"" ++ "!",
                 [DriveAction.createFile, DriveAction.getParents, DriveAction.moveUpdate]⟩)
        | none =>
          ⟨200, true, some c, some false,
            "File \"" ++ f.originalname ++ "\" uploaded successfully" ++
              (if strTruthy hint then " (no matching folder found)" else "") ++ "!",
            [DriveAction.createFile]⟩
      else
        ⟨200, true, some c, some false,
          "File \"" ++ f.originalname ++ "\" uploaded successfully" ++ "!",
          [DriveAction.createFile]⟩ := rfl

/-- Claim C3 (amended): after a successful store, the endpoint responds
`success:true` with `moved:false` whenever the resolver declines or
degrades (returns no folder), whatever the move oracles would do; a
failure of the parent fetch or of the move update is instead reported
as a caught error (`success:false`, status from the message); and no
failure ever undoes the store — the handler never issues a delete, and
the create call stays in the trace of every post-store outcome. -/
theorem claim_C3 :
    (∀ (f : ReqFile) (hint key : Option String) (c : CreatedFile)
        (listing : Except String (List Folder))
        (complete : String → String → Except String (Option String))
        (gp : Except String (List String)) (up : Except String CreatedFile),
      findMatchingFolder key hint f.originalname
          ⟨lastSplitComponent f.originalname, getFileType f.originalname, f.size⟩
          listing complete = none →
        (uploadEndpoint true (some f) hint key (Except.ok c) listing complete gp up).status =
            200 ∧
          (uploadEndpoint true (some f) hint key (Except.ok c) listing complete gp up).success =
            true ∧
          (uploadEndpoint true (some f) hint key (Except.ok c) listing complete gp up).moved =
            some false ∧
          (uploadEndpoint true (some f) hint key (Except.ok c) listing complete gp up).actions =
            [DriveAction.createFile]) ∧
    (∀ (f : ReqFile) (hint key : Option String) (c : CreatedFile) (folder : Folder)
        (listing : Except String (List Folder))
        (complete : String → String → Except String (Option String))
        (e : String) (up : Except String CreatedFile),
      ¬(f.originalname = "") →
        findMatchingFolder key hint f.originalname
            ⟨lastSplitComponent f.originalname, getFileType f.originalname, f.size⟩
            listing complete = some folder →
          uploadEndpoint true (some f) hint key (Except.ok c) listing complete
              (Except.error e) up =
            ⟨statusFor e, false, none, none, e,
              [DriveAction.createFile, DriveAction.getParents]⟩) ∧
    (∀ (f : ReqFile) (hint key : Option String) (c : CreatedFile) (folder : Folder)
        (listing : Except String (List Folder))
        (complete : String → String → Except String (Option String))
        (prev : List String) (e : String),
      ¬(f.originalname = "") →
        findMatchingFolder key hint f.originalname
            ⟨lastSplitComponent f.originalname, getFileType f.originalname, f.size⟩
            listing complete = some folder →
          uploadEndpoint true (some f) hint key (Except.ok c) listing complete
              (Except.ok prev) (Except.error e) =
            ⟨statusFor e, false, none, none, e,
              [DriveAction.createFile, DriveAction.getParents, DriveAction.moveUpdate]⟩) ∧
    (∀ (tokens : Bool) (rf : Option ReqFile) (hint key : Option String)
        (cr : Except String CreatedFile) (listing : Except String (List Folder))
        (complete : String → String → Except String (Option String))
        (gp : Except String (List String)) (up : Except String CreatedFile),
      DriveAction.deleteFile ∉
        (uploadEndpoint tokens rf hint key cr listing complete gp up).actions) := by
  refine ⟨?_, ?_, ?_, ?_⟩
  · intro f hint key c listing complete gp up hnone
    rw [uploadEndpoint_store_nf]
    by_cases hcond : (strTruthy hint || !(f.originalname == "")) = true
    · rw [if_pos hcond, hnone]
      exact ⟨rfl, rfl, rfl, rfl⟩
    · have hcond2 : (strTruthy hint || !(f.originalname == "")) = false := by
        revert hcond
        cases strTruthy hint || !(f.originalname == "") <;> simp
      rw [hcond2]
      exact ⟨rfl, rfl, rfl, rfl⟩
  · intro f hint key c folder listing complete e up hname hsome
    have hcond : (strTruthy hint || !(f.originalname == "")) = true := by
      simp [hname]
    rw [uploadEndpoint_store_nf, if_pos hcond, hsome]
  · intro f hint key c folder listing complete prev e hname hsome
    have hcond : (strTruthy hint || !(f.originalname == "")) = true := by
      simp [hname]
    rw [uploadEndpoint_store_nf, if_pos hcond, hsome]
  · intro tokens rf hint key cr listing complete gp up
    cases tokens with
    | false => simp [uploadEndpoint]
    | true =>
      cases rf with
      | none => simp [uploadEndpoint]
      | some f =>
        cases cr with
        | error e => simp [uploadEndpoint]
        | ok c =>
          rw [uploadEndpoint_store_nf]
          by_cases hcond : (strTruthy hint || !(f.originalname == "")) = true
          · rw [if_pos hcond]
            cases hres : findMatchingFolder key hint f.originalname
                ⟨lastSplitComponent f.originalname, getFileType f.originalname, f.size⟩
                listing complete with
            | none => simp
            | some folder =>
              cases gp with
              | error e => simp
              | ok prev =>
                cases up with
                | error e => simp
                | ok u => simp
          · rw [if_neg hcond]
            simp

/-- Witness for claim C3: a degraded resolver (failed listing) still
yields a 200 `success:true, moved:false` response with only the create
call in the trace, whatever the move oracles hold. -/
theorem claim_C3_witness :
    (findMatchingFolder (some "key") none "photo.png"
        ⟨lastSplitComponent "photo.png", getFileType "photo.png", 5⟩
        (Except.error "network down") (fun _ _ => Except.ok none) = none) ∧
    ((uploadEndpoint true (some ⟨"photo.png", "image/png", 5⟩) none (some "key")
        (Except.ok ⟨"fid", "photo.png", "link", ["r"]⟩) (Except.error "network down")
        (fun _ _ => Except.ok none) (Except.error "boom")
        (Except.ok ⟨"fid", "photo.png", "link", ["r"]⟩)).status = 200 ∧
      (uploadEndpoint true (some ⟨"photo.png", "image/png", 5⟩) none (some "key")
        (Except.ok ⟨"fid", "photo.png", "link", ["r"]⟩) (Except.error "network down")
        (fun _ _ => Except.ok none) (Except.error "boom")
        (Except.ok ⟨"fid", "photo.png", "link", ["r"]⟩)).success = true ∧
      (uploadEndpoint true (some ⟨"photo.png", "image/png", 5⟩) none (some "key")
        (Except.ok ⟨"fid", "photo.png", "link", ["r"]⟩) (Except.error "network down")
        (fun _ _ => Except.ok none) (Except.error "boom")
        (Except.ok ⟨"fid", "photo.png", "link", ["r"]⟩)).moved = some false ∧
      (uploadEndpoint true (some ⟨"photo.png", "image/png", 5⟩) none (some "key")
        (Except.ok ⟨"fid", "photo.png", "link", ["r"]⟩) (Except.error "network down")
        (fun _ _ => Except.ok none) (Except.error "boom")
        (Except.ok ⟨"fid", "photo.png", "link", ["r"]⟩)).actions = [DriveAction.createFile]) :=
  ⟨by decide,
   claim_C3.1 ⟨"photo.png", "image/png", 5⟩ none (some "key")
     ⟨"fid", "photo.png", "link", ["r"]⟩ (Except.error "network down")
     (fun _ _ => Except.ok none) (Except.error "boom")
     (Except.ok ⟨"fid", "photo.png", "link", ["r"]⟩) (by decide)⟩

/-- Counterexample to claim C6 as stated: the chat endpoint performs no
credential check at all.  A request without session tokens is answered
at status 200 (here with the AI-not-configured body), not with the
unauthorized status and `Not authenticated` message the claim
requires. -/
theorem claim_C6_counterexample :
    (chatEndpoint false none (ChatUpstream.netErr "boom")).status = 200 ∧
    ¬((chatEndpoint false none (ChatUpstream.netErr "boom")).status = 401) ∧
    ¬((chatEndpoint false none (ChatUpstream.netErr "boom")).message =
        "Not authenticated") := by
  decide

/-- Claim C6 (amended): on the folder-tree, upload, create-folder,
move-file, search and latest-file endpoints, a request without a
session credential is answered with status 401 and body
`success:false, Not authenticated`, and a thrown upstream failure is
answered with the generic mapping `statusFor` (500, or 401 when the
thrown message is literally `Not authenticated`) carrying the
underlying message.  Two success-shaped failures bypass that mapping
(the latest-file endpoint answers an empty listing at 200 with
`success:false`, and the upload endpoint validates a missing file at
400, see claim C9), and the chat endpoint is the exception entirely:
it never checks the credential (its response is independent of the
session) and answers every outcome, success or failure, at
status 200. -/
theorem claim_C6 :
    (∀ (le : String → String → Bool) (listing : Except String (List Folder)),
      foldersEndpoint le false listing = ⟨401, false, none, some "Not authenticated"⟩) ∧
    (∀ (rf : Option ReqFile) (hint key : Option String) (cr : Except String CreatedFile)
        (listing : Except String (List Folder))
        (complete : String → String → Except String (Option String))
        (gp : Except String (List String)) (up : Except String CreatedFile),
      uploadEndpoint false rf hint key cr listing complete gp up =
        ⟨401, false, none, none, "Not authenticated", []⟩) ∧
    (∀ (name : String) (parentId : Option String) (cr : Except String CreatedFile),
      createFolderEndpoint false name parentId cr =
        ⟨401, false, none, some "Not authenticated"⟩) ∧
    (∀ (gf : Except String (List String)) (up : Except String CreatedFile),
      moveFileEndpoint false gf up = ⟨401, false, none, some "Not authenticated"⟩) ∧
    (∀ (listing : Except String (List DriveItem)),
      searchEndpoint false listing = ⟨401, false, none, some "Not authenticated"⟩) ∧
    (∀ (listing : Except String (List DriveItem)) (pf : Except String String),
      latestEndpoint false listing pf = ⟨401, false, none, none, some "Not authenticated"⟩) ∧
    (∀ (le : String → String → Bool) (e : String),
      foldersEndpoint le true (Except.error e) = ⟨statusFor e, false, none, some e⟩) ∧
    (∀ (name : String) (parentId : Option String) (e : String),
      createFolderEndpoint true name parentId (Except.error e) =
        ⟨statusFor e, false, none, some e⟩) ∧
    (∀ (e : String) (up : Except String CreatedFile),
      moveFileEndpoint true (Except.error e) up = ⟨statusFor e, false, none, some e⟩) ∧
    (∀ (e : String), searchEndpoint true (Except.error e) =
      ⟨statusFor e, false, none, some e⟩) ∧
    (∀ (e : String) (pf : Except String String),
      latestEndpoint true (Except.error e) pf = ⟨statusFor e, false, none, none, some e⟩) ∧
    (∀ (f : ReqFile) (hint key : Option String) (e : String)
        (listing : Except String (List Folder))
        (complete : String → String → Except String (Option String))
        (gp : Except String (List String)) (up : Except String CreatedFile),
      uploadEndpoint true (some f) hint key (Except.error e) listing complete gp up =
        ⟨statusFor e, false, none, none, e, [DriveAction.createFile]⟩) ∧
    (∀ (pf : Except String String),
      latestEndpoint true (Except.ok []) pf = ⟨200, false, none, none, some "No files found"⟩) ∧
    (∀ (tokens tokens2 : Bool) (key : Option String) (up : ChatUpstream),
      chatEndpoint tokens key up = chatEndpoint tokens2 key up) ∧
    (∀ (tokens : Bool) (key : Option String) (up : ChatUpstream),
      (chatEndpoint tokens key up).status = 200) := by
  refine ⟨fun le listing => rfl, fun rf hint key cr listing complete gp up => rfl,
    fun name parentId cr => rfl, fun gf up => rfl, fun listing => rfl,
    fun listing pf => rfl, fun le e => rfl, fun name parentId e => rfl,
    fun e up => rfl, fun e => rfl, fun e pf => rfl,
    fun f hint key e listing complete gp up => rfl, fun pf => rfl,
    fun tokens tokens2 key up => rfl, ?_⟩
  intro tokens key up
  unfold chatEndpoint
  cases strTruthy key with
  | false => rfl
  | true =>
    cases up with
    | netErr e => rfl
    | badJson => rfl
    | parsed choice em =>
      cases choice with
      | none => rfl
      | some c => rfl

/-- A provider that returns a continuation token on every page,
forever. -/
def tokenForeverPages : Nat → FolderPage :=
  fun _ => ⟨[], some "continue"⟩

/-- Counterexample to claim C7 as stated: there is no defensive hard
cap of a few thousand pages — against a provider that always returns a
continuation token, the loop is still running after 10000 iterations
(and, by `claim_C7`, after any number of iterations). -/
theorem claim_C7_counterexample :
    listAllFolders tokenForeverPages 10000 = none := by
  unfold listAllFolders
  exact listLoopAux_none_of_forever tokenForeverPages
    (fun n => by simp [tokenForeverPages]) 10000 0 []

/-- Claim C7 (amended): each pagination loop terminates when and only
when the provider eventually returns a page without a continuation
token; the source has no defensive iteration cap, so a provider that
returns a token forever keeps the loop running past any bound. -/
theorem claim_C7 :
    (∀ pages : Nat → FolderPage,
      (∃ fuel, (listAllFolders pages fuel).isSome = true) ↔
        ∃ n, (pages n).nextPageToken = none) ∧
    (∀ fuel, listAllFolders tokenForeverPages fuel = none) := by
  constructor
  · exact listAllFolders_terminates_iff
  · intro fuel
    unfold listAllFolders
    exact listLoopAux_none_of_forever tokenForeverPages
      (fun n => by simp [tokenForeverPages]) fuel 0 []

/-- Claim C9: an upload request without session tokens is answered
with the 401 `Not authenticated` failure even when no file is attached
(the credential check runs before the file check), so the 400
`No file provided` validation response is reachable only for
authenticated requests. -/
theorem claim_C9 :
    (∀ (hint key : Option String) (cr : Except String CreatedFile)
        (listing : Except String (List Folder))
        (complete : String → String → Except String (Option String))
        (gp : Except String (List String)) (up : Except String CreatedFile),
      uploadEndpoint false none hint key cr listing complete gp up =
        ⟨401, false, none, none, "Not authenticated", []⟩) ∧
    (∀ (rf : Option ReqFile) (hint key : Option String) (cr : Except String CreatedFile)
        (listing : Except String (List Folder))
        (complete : String → String → Except String (Option String))
        (gp : Except String (List String)) (up : Except String CreatedFile),
      ¬((uploadEndpoint false rf hint key cr listing complete gp up).status = 400)) ∧
    (∀ (hint key : Option String) (cr : Except String CreatedFile)
        (listing : Except String (List Folder))
        (complete : String → String → Except String (Option String))
        (gp : Except String (List String)) (up : Except String CreatedFile),
      uploadEndpoint true none hint key cr listing complete gp up =
        ⟨400, false, none, none, "No file provided", []⟩) := by
  refine ⟨fun hint key cr listing complete gp up => rfl, ?_,
    fun hint key cr listing complete gp up => rfl⟩
  intro rf hint key cr listing complete gp up h
  have : (uploadEndpoint false rf hint key cr listing complete gp up).status = 401 := rfl
  rw [this] at h
  cases h

/-- Witness for claim C9: the no-status-400 component at a concrete
unauthenticated request carrying no file. -/
theorem claim_C9_witness :
    ¬((uploadEndpoint false none none none (Except.error "x") (Except.error "x")
        (fun _ _ => Except.ok none) (Except.error "x") (Except.error "x")).status = 400) :=
  claim_C9.2.1 none none none (Except.error "x") (Except.error "x")
    (fun _ _ => Except.ok none) (Except.error "x") (Except.error "x")

/-- Claim C8: for a listing with pairwise-distinct ids in which no two
records of a common sibling group have names that tie under the (total,
transitive) comparator, the built tree is identical for every
permutation of the listing — page arrival order does not matter. -/
theorem claim_C8 (le : String → String → Bool)
    (htot : ∀ a b : String, le a b = true ∨ le b a = true)
    (htrans : ∀ a b c : String, le a b = true → le b c = true → le a c = true)
    (records records2 : List Folder) (hperm : records.Perm records2)
    (hnd : (folderIds records).Nodup)
    (hroot : (rootRecords records).Pairwise (noTie le))
    (hsib : ∀ p, (childRecords records p).Pairwise (noTie le)) :
    buildTree le records = buildTree le records2 :=
  buildTree_perm_eq le htot htrans records records2 hperm hnd hroot hsib

/-- Witness for claim C8: the spec scenario listing and its reversal
produce the same tree. -/
theorem claim_C8_witness :
    ([Folder.mk "1" "Zeta" none, Folder.mk "2" "Alpha" (some ["1"]),
        Folder.mk "3" "Beta" none].Perm
      [Folder.mk "3" "Beta" none, Folder.mk "2" "Alpha" (some ["1"]),
        Folder.mk "1" "Zeta" none]) ∧
    buildTree demoLe [Folder.mk "1" "Zeta" none, Folder.mk "2" "Alpha" (some ["1"]),
        Folder.mk "3" "Beta" none] =
      buildTree demoLe [Folder.mk "3" "Beta" none, Folder.mk "2" "Alpha" (some ["1"]),
        Folder.mk "1" "Zeta" none] := by
  have hall : List.Pairwise (noTie demoLe)
      [Folder.mk "1" "Zeta" none, Folder.mk "2" "Alpha" (some ["1"]),
        Folder.mk "3" "Beta" none] := by
    decide
  exact ⟨by decide,
    claim_C8 demoLe demoLe_total demoLe_trans
      [Folder.mk "1" "Zeta" none, Folder.mk "2" "Alpha" (some ["1"]),
        Folder.mk "3" "Beta" none]
      [Folder.mk "3" "Beta" none, Folder.mk "2" "Alpha" (some ["1"]),
        Folder.mk "1" "Zeta" none]
      (by decide) (by decide)
      (List.Pairwise.sublist (List.filter_sublist _) hall)
      (fun p => List.Pairwise.sublist (List.filter_sublist _) hall)⟩
